import Mathlib

/-!
# A verification model of the `uniffi-swift-helper` packaging tool

This file gives a shallow embedding, in Lean, of the core of the
`uniffi-swift-helper` repository: the platform-deduplicating XCFramework
packaging engine (`src/xcframework.rs`, `src/apple_platform.rs`,
`src/utils.rs`) and the package dependency graph model (`src/project.rs`,
`src/spm.rs`), together with theorems about the embedded code.

Modelling conventions:

* Filesystem paths are lists of components (absolute).  The filesystem is an
  association list from paths to nodes (`file`/`dir`); the first binding for
  a path wins.  Filesystem-touching code is embedded in a state-and-error
  monad `FsM` over that model.
* External processes (`rustc --print target-spec-json`, `xcrun lipo`,
  `xcodebuild -create-xcframework`) are oracles collected in an `Env`
  record: they are arbitrary functions supplied to the embedded code.
* Rust `panic!`/`assert!`/out-of-bounds indexing is the distinguished error
  value `Err.panic`; `anyhow` errors are `Err.msg`.
* Rust string primitives that the source relies on (`str::split('-')`,
  `str::ends_with`, `Path::extension`, `Path::ends_with`) are modelled by
  executable Lean functions over character lists with the documented Rust
  semantics.
-/

namespace Ush

/-! ## Rust string primitives -/

/-- Rust `str::split(c)` : splitting `""` yields `[""]`, and separators at the
ends or adjacent separators yield empty segments. -/
def splitOnChar (c : Char) : List Char → List (List Char)
  | [] => [[]]
  | x :: xs =>
    let rest := splitOnChar c xs
    if x = c then [] :: rest
    else
      match rest with
      | [] => [[x]]
      | r :: rs => (x :: r) :: rs

/-- Rust `str::split(c)` lifted to `String`. -/
def rustSplit (c : Char) (s : String) : List String :=
  (splitOnChar c s.toList).map (fun l => String.mk l)

/-- Rust `str::ends_with(suffix)`. -/
def strEndsWith (s suffix : String) : Bool :=
  suffix.toList.isSuffixOf s.toList

/-- Rust `std::path::Path::extension()` applied to a file name: `none` when
there is no embedded `.` or when the name is a dot file such as `".a"`;
otherwise the portion after the final `.`. -/
def fileExtension (name : String) : Option String :=
  match rustSplit '.' name with
  | [] => none
  | [_] => none
  | "" :: rest => if rest.length == 1 then none else rest.getLast?
  | ps => ps.getLast?

/-! ## The filesystem model -/

/-- A filesystem path, as a list of components (always absolute here). -/
abbrev Path := List String

/-- Rust `std::path::Path::ends_with(q)`: componentwise suffix comparison
(NOT a string-suffix comparison). -/
def pathEndsWith (p q : Path) : Bool :=
  q.isSuffixOf p

/-- `Path::file_name()` of a non-empty path. -/
def fileName (p : Path) : String :=
  p.getLastD ""

/-- `Path::extension()` of a full path. -/
def pathExtension (p : Path) : Option String :=
  fileExtension (fileName p)

/-- A filesystem node: a regular file with its contents, or a directory. -/
inductive Entry where
  | file (content : String) : Entry
  | dir : Entry
deriving DecidableEq, Repr

def Entry.isFile : Entry → Bool
  | .file _ => true
  | .dir => false

/-- The filesystem: an association list from absolute paths to nodes.  The
first binding for a path wins. -/
abbrev FS := List (Path × Entry)

/-- Look up the node at path `p`. -/
def FS.get (st : FS) (p : Path) : Option Entry :=
  (st.find? (fun e => e.1 == p)).map (fun e => e.2)

/-- Model of `std::fs::remove_dir_all(p)`: drop the whole subtree rooted at
`p`, including `p` itself.  (The source only calls it guarded by an
existence check or with the error ignored, so it is modelled as total.) -/
def FS.removeDirAll (p : Path) (st : FS) : FS :=
  st.filter (fun e => !(p.isPrefixOf e.1))

/-- Insert or overwrite a single node. -/
def FS.setEntry (p : Path) (v : Entry) (st : FS) : FS :=
  (p, v) :: st.filter (fun e => !(e.1 == p))

/-- Model of `std::fs::rename(src, dst)`: move the node (and subtree) at
`src` to `dst`, replacing an existing (empty) directory node at `dst`, as
POSIX `rename(2)` does in the only situations the source uses it. -/
def FS.rename (src dst : Path) (st : FS) : FS :=
  (st.filter (fun e => !(e.1 == dst))).map
    (fun e => if src.isPrefixOf e.1 then (dst ++ e.1.drop src.length, e.2) else e)

/-- The immediate children of directory `p`, in filesystem order. -/
def FS.children (st : FS) (p : Path) : List (Path × Entry) :=
  st.filter (fun e => e.1.length == p.length + 1 && p.isPrefixOf e.1)

/-! ## The effect monad -/

/-- Errors of the embedded code: `panic` models Rust `assert!`/`panic!`/
out-of-bounds indexing, `msg` models `anyhow` errors. -/
inductive Err where
  | panic : Err
  | msg (s : String) : Err
deriving DecidableEq, Repr

/-- State-and-error monad over the modelled filesystem.  A failing
computation still produces the filesystem state reached at the failure
point (Rust `?`/panic propagation does not roll back effects). -/
def FsM (α : Type) : Type := FS → Except Err α × FS

instance : Monad FsM where
  pure a := fun st => (Except.ok a, st)
  bind m f := fun st =>
    match m st with
    | (Except.ok a, st') => f a st'
    | (Except.error e, st') => (Except.error e, st')

def getFS : FsM FS := fun st => (Except.ok st, st)

def modifyFS (f : FS → FS) : FsM Unit := fun st => (Except.ok (), f st)

def throwMsg {α : Type} (s : String) : FsM α := fun st => (Except.error (.msg s), st)

/-- A Rust panic (`assert!` failure or out-of-bounds index). -/
def panicF {α : Type} : FsM α := fun st => (Except.error .panic, st)

theorem FsM.run_pure {α : Type} (a : α) (st : FS) :
    (pure a : FsM α) st = (Except.ok a, st) := rfl

theorem FsM.run_bind {α β : Type} (m : FsM α) (f : α → FsM β) (st : FS) :
    (m >>= f) st =
      match m st with
      | (Except.ok a, st') => f a st'
      | (Except.error e, st') => (Except.error e, st') := rfl

/-- Model of `std::fs::read_dir(p)`: fails unless `p` is a directory node. -/
def readDir (p : Path) : FsM (List (Path × Entry)) := fun st =>
  if FS.get st p = some Entry.dir then (Except.ok (FS.children st p), st)
  else (Except.error (.msg "read_dir failed"), st)

/-- Model of `std::fs::copy(src, dst)`: fails unless `src` is a regular
file. -/
def copy (src dst : Path) : FsM Unit := fun st =>
  match FS.get st src with
  | some (Entry.file c) => (Except.ok (), FS.setEntry dst (Entry.file c) st)
  | _ => (Except.error (.msg "copy failed"), st)

/-- `fs::recreate_dir` from `src/utils.rs`: remove the directory (with its
contents) if it exists, then create it empty. -/
def recreate_dir (p : Path) : FsM Unit :=
  modifyFS (fun st => FS.setEntry p Entry.dir (FS.removeDirAll p st))

/-- `std::fs::rename` as used by the source, lifted to the monad. -/
def renameM (src dst : Path) : FsM Unit :=
  modifyFS (FS.rename src dst)

/-- `files_with_extension` from `src/utils.rs`: the regular files among the
immediate children of `p` whose extension is `ext`. -/
def files_with_extension (p : Path) (ext : String) : FsM (List Path) := do
  let entries ← readDir p
  pure ((entries.filter (fun f => f.2.isFile && pathExtension f.1 == some ext)).map (fun f => f.1))

/-! ## `src/build.rs` / `src/apple_platform.rs`: profiles and platforms -/

/-- `CargoProfile` from `src/build.rs`. -/
inductive CargoProfile where
  | Dev : CargoProfile
  | Release : CargoProfile
deriving DecidableEq, Repr

/-- `CargoProfile::dir_name` from `src/build.rs`. -/
def CargoProfile.dir_name : CargoProfile → String
  | .Dev => "debug"
  | .Release => "release"

/-- `ApplePlatform` from `src/apple_platform.rs`. -/
inductive ApplePlatform where
  | MacOS : ApplePlatform
  | IOS : ApplePlatform
  | TvOS : ApplePlatform
  | WatchOS : ApplePlatform
deriving DecidableEq, Repr

/-- `TryFrom<&str> for ApplePlatform` from `src/apple_platform.rs`. -/
def ApplePlatform.try_from (s : String) : Except String ApplePlatform :=
  match s with
  | "darwin" => .ok .MacOS
  | "ios" => .ok .IOS
  | "tvos" => .ok .TvOS
  | "watchos" => .ok .WatchOS
  | _ => .error ("Unknown Apple platform: " ++ s)

/-- `Display for ApplePlatform` from `src/apple_platform.rs`. -/
def ApplePlatform.display : ApplePlatform → String
  | .MacOS => "macos"
  | .IOS => "ios"
  | .TvOS => "tvos"
  | .WatchOS => "watchos"

/-! ## External process oracles -/

/-- Oracles for the external processes invoked by `src/xcframework.rs`.
`llvmTarget` is the `llvm-target` field that
`rustc --print target-spec-json --target <t>` reports for a triple;
`lipo` is `xcrun lipo -create` (inputs and current filesystem to merged
output contents); `xcodebuild` is `xcodebuild -create-xcframework`
(`(-library, -headers)` pairs and current filesystem to the relative paths
and contents of the produced bundle files).  An `Except.error` models a
non-zero exit of the spawned process. -/
structure Env where
  llvmTarget : String → Except String String
  lipo : List Path → FS → Except String String
  xcodebuild : List (Path × Path) → FS → Except String (List (Path × String))

/-! ## `src/xcframework.rs`: data model -/

/-- `LibraryGroupId` from `src/xcframework.rs`. -/
structure LibraryGroupId where
  os : ApplePlatform
  is_sim : Bool
deriving DecidableEq, Repr

/-- `Display for LibraryGroupId` from `src/xcframework.rs`. -/
def LibraryGroupId.display (id : LibraryGroupId) : String :=
  if id.is_sim then id.os.display ++ "-sim" else id.os.display

/-- `Slice` from `src/xcframework.rs`. -/
structure Slice where
  target : String
  profile : CargoProfile
deriving DecidableEq, Repr

/-- `LibraryGroup` from `src/xcframework.rs`. -/
structure LibraryGroup where
  id : LibraryGroupId
  slices : List Slice
deriving DecidableEq, Repr

/-- `XCFramework` from `src/xcframework.rs`. -/
structure XCFramework where
  libraries : List LibraryGroup
deriving DecidableEq, Repr

/-- `LibraryGroupId::from_target` from `src/xcframework.rs`: parse
`<arch>-<vendor>-<os>[-variant]`, require vendor `apple`, map the OS
segment through `ApplePlatform::try_from`, then classify as simulator iff
the toolchain-reported `llvm-target` string ends with `-simulator`. -/
def LibraryGroupId.from_target (env : Env) (target : String) : Except String LibraryGroupId :=
  let parts := rustSplit '-' target
  if parts[1]? ≠ some "apple" then
    Except.error (target ++ " is not an Apple platform")
  else
    match parts[2]? with
    | none => Except.error ("No OS in target: " ++ target)
    | some osStr =>
      match ApplePlatform.try_from osStr with
      | .error e => .error e
      | .ok os =>
        match env.llvmTarget target with
        | .error e => .error e
        | .ok llvm_target => .ok ⟨os, strEndsWith llvm_target "-simulator"⟩

/-! ## `XCFramework::new`: grouping the requested triples

The source accumulates a `HashMap<LibraryGroupId, LibraryGroup>` with
`entry(id).or_insert(..).slices.push(..)` and finally takes
`into_values()`.  The map is modelled as a list of groups keyed by their
(structurally distinct) ids; `into_values()` order is unspecified for a
`HashMap`, here it is insertion order. -/

/-- One step of `groups.entry(id).or_insert(LibraryGroup with no slices)
.slices.push(Slice with this target and profile)`. -/
def insertGroup (id : LibraryGroupId) (target : String) (profile : CargoProfile) :
    List LibraryGroup → List LibraryGroup
  | [] => [⟨id, [⟨target, profile⟩]⟩]
  | g :: gs =>
    if g.id = id then ⟨g.id, g.slices ++ [⟨target, profile⟩]⟩ :: gs
    else g :: insertGroup id target profile gs

/-- The loop of `XCFramework::new` over the requested targets. -/
def newGroups (env : Env) (profile : CargoProfile) :
    List String → List LibraryGroup → Except String (List LibraryGroup)
  | [], groups => .ok groups
  | target :: rest, groups =>
    match LibraryGroupId.from_target env target with
    | .error e => .error e
    | .ok id => newGroups env profile rest (insertGroup id target profile groups)

/-- `XCFramework::new` from `src/xcframework.rs`. -/
def XCFramework.new (env : Env) (targets : List String) (profile : CargoProfile) :
    Except String XCFramework :=
  match newGroups env profile targets [] with
  | .error e => .error e
  | .ok groups => .ok ⟨groups⟩

/-! ## `Slice` and `LibraryGroup` operations -/

/-- `Slice::built_product_dir` from `src/xcframework.rs`. -/
def Slice.built_product_dir (s : Slice) (cargo_target_dir : Path) : Path :=
  cargo_target_dir ++ [s.target, s.profile.dir_name]

/-- `Slice::built_libraries` from `src/xcframework.rs`. -/
def Slice.built_libraries (s : Slice) (cargo_target_dir : Path) : FsM (List Path) :=
  files_with_extension (s.built_product_dir cargo_target_dir) "a"

/-- `Slice::create` from `src/xcframework.rs`: `assert!` that there is
exactly one built static library (a Rust panic otherwise), check it exists,
then copy it into a freshly recreated per-target scratch directory. -/
def Slice.create (s : Slice) (cargo_target_dir : Path) (library_file_name : String)
    (temp_dir : Path) : FsM Path := do
  let libs ← s.built_libraries cargo_target_dir
  match libs with
  | [lib] => do
    let st ← getFS
    if (FS.get st lib).isSome then do
      let dir := temp_dir ++ [s.target]
      recreate_dir dir
      let dest := dir ++ [library_file_name ++ ".a"]
      copy lib dest
      pure dest
    else throwMsg "Library not found"
  | _ => panicF

/-- The loop of `LibraryGroup::create` collecting each slice's staged
library. -/
def sliceLibs (cargo_target_dir : Path) (library_file_name : String) (temp_dir : Path) :
    List Slice → FsM (List Path)
  | [] => pure []
  | s :: rest => do
    let lib ← s.create cargo_target_dir library_file_name temp_dir
    let libs ← sliceLibs cargo_target_dir library_file_name temp_dir rest
    pure (lib :: libs)

/-- `LibraryGroup::create` from `src/xcframework.rs`: stage every slice,
then run `xcrun lipo -create` (an oracle) into a freshly recreated
per-group scratch directory. -/
def LibraryGroup.create (g : LibraryGroup) (env : Env) (cargo_target_dir : Path)
    (library_file_name : String) (temp_dir : Path) : FsM Path := do
  let libraries ← sliceLibs cargo_target_dir library_file_name temp_dir g.slices
  let dir := temp_dir ++ [g.id.display]
  recreate_dir dir
  let dest := dir ++ [library_file_name ++ ".a"]
  let st ← getFS
  match env.lipo libraries st with
  | .error e => throwMsg e
  | .ok merged => do
    modifyFS (FS.setEntry dest (Entry.file merged))
    pure dest

/-- `LibraryGroup::swift_bindings_dir` from `src/xcframework.rs`. -/
def LibraryGroup.swift_bindings_dir (g : LibraryGroup) (cargo_target_dir : Path) :
    FsM Path := do
  match g.slices.head? with
  | none => throwMsg "No slices in library group"
  | some slice => do
    let path := slice.built_product_dir cargo_target_dir ++ ["swift-bindings"]
    let st ← getFS
    if (FS.get st path).isSome then pure path else throwMsg "Headers not found"

/-- `LibraryGroup::headers_dir` from `src/xcframework.rs`. -/
def LibraryGroup.headers_dir (g : LibraryGroup) (cargo_target_dir : Path) : FsM Path := do
  let base ← g.swift_bindings_dir cargo_target_dir
  let path := base ++ ["headers"]
  let st ← getFS
  if (FS.get st path).isSome then pure path else throwMsg "Headers not found"

/-- `LibraryGroup::swift_binding_files` from `src/xcframework.rs`. -/
def LibraryGroup.swift_binding_files (g : LibraryGroup) (cargo_target_dir : Path) :
    FsM (List Path) := do
  let dir ← g.swift_bindings_dir cargo_target_dir
  files_with_extension dir "swift"

/-! ## `XCFramework` operations -/

/-- The `library_args` construction inside `XCFramework::create_xcframework`
(lines 129–138): for each group, stage-and-merge its library and locate its
headers directory, producing one `(-library, -headers)` pair per group. -/
def libraryArgsAux (env : Env) (cargo_target_dir : Path) (library_file_name : String)
    (temp_dir : Path) : List LibraryGroup → FsM (List (Path × Path))
  | [] => pure []
  | library :: rest => do
    let lib ← library.create env cargo_target_dir library_file_name temp_dir
    let header ← library.headers_dir cargo_target_dir
    let tail ← libraryArgsAux env cargo_target_dir library_file_name temp_dir rest
    pure ((lib, header) :: tail)

/-- See `libraryArgsAux`. -/
def XCFramework.library_args (x : XCFramework) (env : Env) (cargo_target_dir : Path)
    (library_file_name : String) (temp_dir : Path) : FsM (List (Path × Path)) :=
  libraryArgsAux env cargo_target_dir library_file_name temp_dir x.libraries

/-- `XCFramework::create_xcframework` from `src/xcframework.rs`: build the
`(-library, -headers)` pair list and run `xcodebuild -create-xcframework`
(an oracle), which writes the bundle under `temp_dest`. -/
def XCFramework.create_xcframework (x : XCFramework) (env : Env) (cargo_target_dir : Path)
    (library_file_name : String) (temp_dir : Path) : FsM Path := do
  let temp_dest := temp_dir ++ [library_file_name ++ ".xcframework"]
  modifyFS (FS.removeDirAll temp_dest)
  let args ← x.library_args env cargo_target_dir library_file_name temp_dir
  let st ← getFS
  match env.xcodebuild args st with
  | .error e => throwMsg e
  | .ok files => do
    modifyFS (fun s =>
      files.foldl (fun a rc => FS.setEntry (temp_dest ++ rc.1) (Entry.file rc.2) a)
        (FS.setEntry temp_dest Entry.dir s))
    pure temp_dest

/-- The inner loop of `XCFramework::patch_xcframework`, moving each
collected path into the module-named headers subdirectory. -/
def patchMoveFiles (new_headers_dir : Path) : List Path → FsM Unit
  | [] => pure ()
  | file :: rest => do
    renameM file (new_headers_dir ++ [fileName file])
    patchMoveFiles new_headers_dir rest

/-- The outer loop of `XCFramework::patch_xcframework` over the immediate
entries of the assembled bundle.  Note the source computes `non_lib_files`
with `f.path().ends_with(".a")`, a componentwise `Path::ends_with`. -/
def patchPlatformDirs (module_name : String) : List (Path × Entry) → FsM Unit
  | [] => pure ()
  | e :: rest => do
    if e.2 = Entry.dir then do
      let headers_dir := e.1 ++ ["Headers"]
      let hentries ← readDir headers_dir
      let non_lib_files := (hentries.filter (fun f => !(pathEndsWith f.1 [".a"]))).map (fun f => f.1)
      let new_headers_dir := headers_dir ++ [module_name]
      recreate_dir new_headers_dir
      patchMoveFiles new_headers_dir non_lib_files
      patchPlatformDirs module_name rest
    else
      patchPlatformDirs module_name rest

/-- `XCFramework::patch_xcframework` from `src/xcframework.rs` (it does not
read `self`). -/
def XCFramework.patch_xcframework (temp_dir : Path) (module_name : String) : FsM Unit := do
  let entries ← readDir temp_dir
  patchPlatformDirs module_name entries

/-- The Swift-wrapper copy loop at the end of `XCFramework::create`. -/
def copySwiftFiles (swift_wrapper_dir : Path) : List Path → FsM Unit
  | [] => pure ()
  | file :: rest => do
    copy file (swift_wrapper_dir ++ [fileName file])
    copySwiftFiles swift_wrapper_dir rest

/-- `XCFramework::create` from `src/xcframework.rs`: assemble the bundle in
the scratch root, patch it, recreate the destination, move the bundle there
by a rename, then copy the Swift binding files of `self.libraries[0]`
(an indexing that panics when there are no groups) into the wrapper
directory. -/
def XCFramework.create (x : XCFramework) (env : Env) (cargo_target_dir : Path)
    (library_file_name : String) (temp_dir dest swift_wrapper_dir : Path) : FsM Unit := do
  let temp_dest ← x.create_xcframework env cargo_target_dir library_file_name temp_dir
  XCFramework.patch_xcframework temp_dest library_file_name
  recreate_dir dest
  renameM temp_dest dest
  recreate_dir swift_wrapper_dir
  match x.libraries[0]? with
  | none => panicF
  | some lib0 => do
    let files ← lib0.swift_binding_files cargo_target_dir
    copySwiftFiles swift_wrapper_dir files

/-- The free function `create_xcframework` from `src/xcframework.rs`
(lines 11–32): recreate the process-scoped scratch root, run the whole
pipeline, and remove the scratch root — the removal is only reached when
every previous step succeeded, because `?` returns early. -/
def create_xcframework (env : Env) (cargo_target_dir : Path) (targets : List String)
    (profile : CargoProfile) (name : String) (xcframework swift_wrapper : Path) :
    FsM Unit := do
  let temp_dir := cargo_target_dir ++ ["tmp", "wp-rs-xcframework"]
  recreate_dir temp_dir
  match XCFramework.new env targets profile with
  | .error e => throwMsg e
  | .ok x => do
    x.create env cargo_target_dir name temp_dir xcframework swift_wrapper
    modifyFS (FS.removeDirAll temp_dir)

/-! ## `src/project.rs` / `src/spm.rs`: the package dependency graph -/

/-- `UniffiPackage` from `src/project.rs` (and its structural twin in
`src/spm.rs`): a package with its dependencies resolved recursively against
the discovered set. -/
inductive UniffiPackage where
  | mk (name : String) (manifest_path : String) (dependencies : List UniffiPackage) :
      UniffiPackage

def UniffiPackage.name : UniffiPackage → String
  | .mk n _ _ => n

def UniffiPackage.manifest_path : UniffiPackage → String
  | .mk _ m _ => m

def UniffiPackage.dependencies : UniffiPackage → List UniffiPackage
  | .mk _ _ d => d

/-- `UniffiPackage::depends_on` from `src/project.rs`. -/
def UniffiPackage.depends_on (p : UniffiPackage) (other : String) : Bool :=
  p.dependencies.any (fun d => d.name == other)

mutual

/-- Size of a package tree (for termination of the traversal). -/
def UniffiPackage.size : UniffiPackage → Nat
  | .mk _ _ deps => 1 + UniffiPackage.sizeList deps

/-- Total size of a list of package trees. -/
def UniffiPackage.sizeList : List UniffiPackage → Nat
  | [] => 0
  | p :: ps => UniffiPackage.size p + UniffiPackage.sizeList ps

end

/-- The loop of `UniffiPackage::iter` from `src/project.rs`: `queue` is a
Rust `Vec` used as a stack, modelled with its top at the head, so Rust's
`for dep in &package.dependencies { queue.push(dep) }` prepends the
dependencies in reverse declaration order. -/
def UniffiPackage.iterAux : List UniffiPackage → List UniffiPackage → List UniffiPackage
  | result, [] => result
  | result, package :: queue =>
    UniffiPackage.iterAux (result ++ [package]) (package.dependencies.reverse ++ queue)
termination_by result queue => UniffiPackage.sizeList queue
decreasing_by
  simp_wf
  have happ : ∀ (a b : List UniffiPackage),
      UniffiPackage.sizeList (a ++ b) = UniffiPackage.sizeList a + UniffiPackage.sizeList b := by
    intro a b
    induction a with
    | nil => simp [UniffiPackage.sizeList]
    | cons x xs ih => simp [UniffiPackage.sizeList, ih]; omega
  have hrev : ∀ (a : List UniffiPackage),
      UniffiPackage.sizeList a.reverse = UniffiPackage.sizeList a := by
    intro a
    induction a with
    | nil => rfl
    | cons x xs ih => simp [List.reverse_cons, happ, UniffiPackage.sizeList, ih]; omega
  have hsize : UniffiPackage.size package =
      1 + UniffiPackage.sizeList package.dependencies := by
    cases package with
    | mk n m d => simp [UniffiPackage.size, UniffiPackage.dependencies]
  simp [happ, hrev, UniffiPackage.sizeList, hsize]

/-- `UniffiPackage::iter` from `src/project.rs`. -/
def UniffiPackage.iter (p : UniffiPackage) : List UniffiPackage :=
  UniffiPackage.iterAux [] [p]

/-- `Project::uniffi_package` from `src/project.rs`, restricted to its
root-resolution step over the already-discovered set: keep the packages no
discovered package depends on; succeed only when exactly one remains,
otherwise fail carrying every candidate's name (the source's
`anyhow::bail!` message lists exactly those names). -/
def Project.uniffi_package (uniffi_packages : List UniffiPackage) :
    Except (List String) UniffiPackage :=
  match uniffi_packages.filter
      (fun p => !(uniffi_packages.any (fun other => other.depends_on p.name))) with
  | [p] => .ok p
  | ps => .error (ps.map UniffiPackage.name)

/-- The root-package selection inside `generate_swift_package2` from
`src/spm.rs`: `uniffi_packages.iter().find(|p| no one depends on p).unwrap()`,
i.e. the first package in list order that no discovered package depends
on (`none` models the `unwrap` panic). -/
def generate_swift_package2_root (uniffi_packages : List UniffiPackage) :
    Option UniffiPackage :=
  uniffi_packages.find?
    (fun p => !(uniffi_packages.any (fun other => other.depends_on p.name)))

/-! ## Concrete fixtures used by the witnesses -/

/-- An environment in which every external process succeeds. -/
def envOk : Env where
  llvmTarget := fun _ => .ok "arm64-apple-ios"
  lipo := fun _ _ => .ok "FAT"
  xcodebuild := fun _ _ => .ok [(["f.h"], "H")]

/-- An environment in which the toolchain introspection call fails. -/
def envBoom : Env where
  llvmTarget := fun _ => .error "boom"
  lipo := fun _ _ => .error "boom"
  xcodebuild := fun _ _ => .error "boom"

/-- A filesystem holding one built slice for `arm64-apple-ios` (release):
exactly one static library and the generated `swift-bindings` output. -/
def fsOk : FS :=
  [(["t", "arm64-apple-ios", "release"], Entry.dir),
   (["t", "arm64-apple-ios", "release", "libwp.a"], Entry.file "LIB"),
   (["t", "arm64-apple-ios", "release", "swift-bindings"], Entry.dir),
   (["t", "arm64-apple-ios", "release", "swift-bindings", "headers"], Entry.dir),
   (["t", "arm64-apple-ios", "release", "swift-bindings", "wp.swift"], Entry.file "SWIFT")]

/-- An assembled bundle holding one platform subdirectory whose `Headers`
folder mixes a `.a` static library with a loose header file. -/
def fsPatch : FS :=
  [(["b"], Entry.dir),
   (["b", "ios"], Entry.dir),
   (["b", "ios", "Headers"], Entry.dir),
   (["b", "ios", "Headers", "libFoo.a"], Entry.file "A"),
   (["b", "ios", "Headers", "wp.h"], Entry.file "H")]

/-- A package with no dependencies. -/
def pkgC : UniffiPackage := .mk "C" "c/Cargo.toml" []

/-- A package depending on `pkgC`. -/
def pkgB : UniffiPackage := .mk "B" "b/Cargo.toml" [pkgC]

/-- The root of the chain `A -> B -> C`. -/
def pkgA : UniffiPackage := .mk "A" "a/Cargo.toml" [pkgB]

/-- Bottom of a diamond. -/
def pkgD' : UniffiPackage := .mk "D" "d/Cargo.toml" []

/-- Left arm of a diamond over `pkgD'`. -/
def pkgBD : UniffiPackage := .mk "B" "b/Cargo.toml" [pkgD']

/-- Right arm of a diamond over `pkgD'`. -/
def pkgCD : UniffiPackage := .mk "C" "c/Cargo.toml" [pkgD']

/-- The root of the diamond `A -> {B, C} -> D`. -/
def pkgAD : UniffiPackage := .mk "A" "a/Cargo.toml" [pkgBD, pkgCD]

end Ush

namespace Ush

/-! ## Helper lemmas -/

/-- `ApplePlatform::try_from` succeeds exactly on the fixed OS
enumeration. -/
theorem ApplePlatform.try_from_isOk (s : String) :
    (ApplePlatform.try_from s).isOk = true ↔
      s ∈ (["darwin", "ios", "tvos", "watchos"] : List String) := by
  unfold ApplePlatform.try_from
  split <;> simp_all [Except.isOk, Except.toBool]

/-! ## C6: platform-identity resolution -/

/-- C6: for every target triple string, platform-identity resolution fails
whenever the triple's second dash-separated segment is not `apple`, or the
third segment is absent, or the third segment is not in the fixed OS
enumeration (which is exactly where `ApplePlatform::try_from` succeeds);
otherwise, when the toolchain oracle reports an `llvm-target`, it returns
the identity whose OS is mapped from the third segment and whose simulator
flag is set iff that `llvm-target` string ends with `-simulator`. -/
theorem c6_platform_identity_resolution (env : Env) (target : String) :
    ((rustSplit '-' target)[1]? ≠ some "apple" →
      (LibraryGroupId.from_target env target).isOk = false)
    ∧ ((rustSplit '-' target)[1]? = some "apple" → (rustSplit '-' target)[2]? = none →
      (LibraryGroupId.from_target env target).isOk = false)
    ∧ (∀ osStr, (rustSplit '-' target)[1]? = some "apple" →
        (rustSplit '-' target)[2]? = some osStr →
        osStr ∉ (["darwin", "ios", "tvos", "watchos"] : List String) →
        (LibraryGroupId.from_target env target).isOk = false)
    ∧ (∀ osStr os llvm, (rustSplit '-' target)[1]? = some "apple" →
        (rustSplit '-' target)[2]? = some osStr →
        ApplePlatform.try_from osStr = .ok os →
        env.llvmTarget target = .ok llvm →
        LibraryGroupId.from_target env target =
          .ok ⟨os, strEndsWith llvm "-simulator"⟩)
    ∧ (∀ s, (ApplePlatform.try_from s).isOk = true ↔
        s ∈ (["darwin", "ios", "tvos", "watchos"] : List String)) := by
  refine ⟨?_, ?_, ?_, ?_, fun s => ApplePlatform.try_from_isOk s⟩
  · intro h1
    simp [LibraryGroupId.from_target, h1, Except.isOk, Except.toBool]
  · intro h1 h2
    simp [LibraryGroupId.from_target, h1, h2, Except.isOk, Except.toBool]
  · intro osStr h1 h2 h3
    have hfail : (ApplePlatform.try_from osStr).isOk = false := by
      rcases hb : (ApplePlatform.try_from osStr).isOk with _ | _
      · rfl
      · exact absurd ((ApplePlatform.try_from_isOk osStr).mp hb) h3
    rcases htf : ApplePlatform.try_from osStr with e | v
    · simp [LibraryGroupId.from_target, h1, h2, htf, Except.isOk, Except.toBool]
    · rw [htf] at hfail
      simp [Except.isOk, Except.toBool] at hfail
  · intro osStr os llvm h1 h2 h3 h4
    simp [LibraryGroupId.from_target, h1, h2, h3, h4]

/-- Witness for C6 at the concrete triple `aarch64-apple-ios` under
`envOk`. -/
theorem c6_platform_identity_resolution_witness :
    (rustSplit '-' "aarch64-apple-ios")[1]? = some "apple"
    ∧ (rustSplit '-' "aarch64-apple-ios")[2]? = some "ios"
    ∧ ApplePlatform.try_from "ios" = .ok .IOS
    ∧ envOk.llvmTarget "aarch64-apple-ios" = .ok "arm64-apple-ios"
    ∧ LibraryGroupId.from_target envOk "aarch64-apple-ios" =
        .ok ⟨.IOS, strEndsWith "arm64-apple-ios" "-simulator"⟩ :=
  ⟨by decide, by decide, rfl, rfl,
    (c6_platform_identity_resolution envOk "aarch64-apple-ios").2.2.2.1
      "ios" .IOS "arm64-apple-ios" (by decide) (by decide) rfl rfl⟩

/-! ## Helper lemmas about lists and the traversal -/

theorem find?_eq_head_filter {α : Type} (p : α → Bool) (l : List α) :
    l.find? p = (l.filter p).head? := by
  induction l with
  | nil => rfl
  | cons x xs ih =>
    cases h : p x with
    | true =>
      rw [List.find?_cons_of_pos _ h, List.filter_cons_of_pos]
      · rfl
      · exact h
    | false =>
      rw [List.find?_cons_of_neg, List.filter_cons_of_neg]
      · exact ih
      · simp [h]
      · simp [h]

theorem UniffiPackage.sizeList_append (a b : List UniffiPackage) :
    UniffiPackage.sizeList (a ++ b) =
      UniffiPackage.sizeList a + UniffiPackage.sizeList b := by
  induction a with
  | nil => simp [UniffiPackage.sizeList]
  | cons x xs ih => simp [UniffiPackage.sizeList, ih]; omega

theorem UniffiPackage.sizeList_reverse (a : List UniffiPackage) :
    UniffiPackage.sizeList a.reverse = UniffiPackage.sizeList a := by
  induction a with
  | nil => rfl
  | cons x xs ih =>
    simp [List.reverse_cons, UniffiPackage.sizeList_append, UniffiPackage.sizeList, ih]
    omega

theorem UniffiPackage.size_eq (p : UniffiPackage) :
    p.size = 1 + UniffiPackage.sizeList p.dependencies := by
  cases p with
  | mk n m d => simp [UniffiPackage.size, UniffiPackage.dependencies]

theorem UniffiPackage.iterAux_nil (res : List UniffiPackage) :
    UniffiPackage.iterAux res [] = res := by
  rw [UniffiPackage.iterAux]

theorem UniffiPackage.iterAux_cons (res : List UniffiPackage) (p : UniffiPackage)
    (q : List UniffiPackage) :
    UniffiPackage.iterAux res (p :: q) =
      UniffiPackage.iterAux (res ++ [p]) (p.dependencies.reverse ++ q) := by
  rw [UniffiPackage.iterAux]

theorem UniffiPackage.iterAux_acc_fuel :
    ∀ (n : Nat) (q : List UniffiPackage), UniffiPackage.sizeList q ≤ n →
      ∀ res, UniffiPackage.iterAux res q = res ++ UniffiPackage.iterAux [] q := by
  intro n
  induction n with
  | zero =>
    intro q hq res
    cases q with
    | nil => simp [UniffiPackage.iterAux_nil]
    | cons p qs =>
      exfalso
      have h1 : UniffiPackage.sizeList (p :: qs) =
          p.size + UniffiPackage.sizeList qs := rfl
      have h2 := UniffiPackage.size_eq p
      omega
  | succ n ih =>
    intro q hq res
    cases q with
    | nil => simp [UniffiPackage.iterAux_nil]
    | cons p qs =>
      have hsz : UniffiPackage.sizeList (p.dependencies.reverse ++ qs) ≤ n := by
        have h1 : UniffiPackage.sizeList (p :: qs) =
            p.size + UniffiPackage.sizeList qs := rfl
        have h2 := UniffiPackage.size_eq p
        have h3 := UniffiPackage.sizeList_append p.dependencies.reverse qs
        have h4 := UniffiPackage.sizeList_reverse p.dependencies
        omega
      rw [UniffiPackage.iterAux_cons, UniffiPackage.iterAux_cons,
        ih _ hsz (res ++ [p]), ih _ hsz ([] ++ [p])]
      simp

theorem UniffiPackage.iterAux_acc (q res : List UniffiPackage) :
    UniffiPackage.iterAux res q = res ++ UniffiPackage.iterAux [] q :=
  UniffiPackage.iterAux_acc_fuel (UniffiPackage.sizeList q) q le_rfl res

theorem UniffiPackage.iterAux_append_fuel :
    ∀ (n : Nat) (q1 q2 : List UniffiPackage), UniffiPackage.sizeList q1 ≤ n →
      UniffiPackage.iterAux [] (q1 ++ q2) =
        UniffiPackage.iterAux [] q1 ++ UniffiPackage.iterAux [] q2 := by
  intro n
  induction n with
  | zero =>
    intro q1 q2 hq
    cases q1 with
    | nil => simp [UniffiPackage.iterAux_nil]
    | cons p qs =>
      exfalso
      have h1 : UniffiPackage.sizeList (p :: qs) =
          p.size + UniffiPackage.sizeList qs := rfl
      have h2 := UniffiPackage.size_eq p
      omega
  | succ n ih =>
    intro q1 q2 hq
    cases q1 with
    | nil => simp [UniffiPackage.iterAux_nil]
    | cons p qs =>
      have hsz : UniffiPackage.sizeList (p.dependencies.reverse ++ qs) ≤ n := by
        have h1 : UniffiPackage.sizeList (p :: qs) =
            p.size + UniffiPackage.sizeList qs := rfl
        have h2 := UniffiPackage.size_eq p
        have h3 := UniffiPackage.sizeList_append p.dependencies.reverse qs
        have h4 := UniffiPackage.sizeList_reverse p.dependencies
        omega
      have hstep : (p :: qs) ++ q2 = p :: (qs ++ q2) := rfl
      rw [hstep, UniffiPackage.iterAux_cons, UniffiPackage.iterAux_cons,
        UniffiPackage.iterAux_acc, UniffiPackage.iterAux_acc (p.dependencies.reverse ++ qs)]
      rw [← List.append_assoc p.dependencies.reverse qs q2,
        ih _ q2 (by simpa [UniffiPackage.sizeList_append] using hsz)]
      simp

theorem UniffiPackage.iterAux_flatten (l : List UniffiPackage) :
    UniffiPackage.iterAux [] l = (l.map UniffiPackage.iter).flatten := by
  induction l with
  | nil => simp [UniffiPackage.iterAux_nil]
  | cons d rest ih =>
    have h : d :: rest = [d] ++ rest := rfl
    rw [h, UniffiPackage.iterAux_append_fuel (UniffiPackage.sizeList [d]) [d] rest le_rfl, ih]
    rfl

/-! ## C8: the package traversal -/

/-- C8: the traversal satisfies the recurrence `iter p = p :: flatten (map
iter (reverse p.dependencies))` — it visits a node before its dependencies
and visits siblings in reverse declaration order (the stack/LIFO order);
on the chain `A -> B -> C` it yields `[A, B, C]`; on the diamond
`A -> {B, C} -> D` the shared node `D` is yielded once per path (no
deduplication).  The model is a pure function of the immutable tree, so
re-invocation is identical by construction. -/
theorem c8_traversal_order :
    (∀ p : UniffiPackage,
      p.iter = p :: (p.dependencies.reverse.map UniffiPackage.iter).flatten)
    ∧ pkgA.iter = [pkgA, pkgB, pkgC]
    ∧ pkgAD.iter.map UniffiPackage.name = ["A", "C", "D", "B", "D"]
    ∧ (pkgAD.iter.map UniffiPackage.name).count "D" = 2 := by
  have hrec : ∀ p : UniffiPackage,
      p.iter = p :: (p.dependencies.reverse.map UniffiPackage.iter).flatten := by
    intro p
    show UniffiPackage.iterAux [] [p] = _
    rw [UniffiPackage.iterAux_cons, List.append_nil, UniffiPackage.iterAux_acc,
      UniffiPackage.iterAux_flatten]
    rfl
  have hchain : pkgA.iter = [pkgA, pkgB, pkgC] := by
    simp [UniffiPackage.iter, pkgA, pkgB, pkgC, UniffiPackage.dependencies,
      UniffiPackage.iterAux_cons, UniffiPackage.iterAux_nil]
  have hdiamond : pkgAD.iter.map UniffiPackage.name = ["A", "C", "D", "B", "D"] := by
    simp [UniffiPackage.iter, pkgAD, pkgBD, pkgCD, pkgD', UniffiPackage.dependencies,
      UniffiPackage.iterAux_cons, UniffiPackage.iterAux_nil, UniffiPackage.name]
  refine ⟨hrec, hchain, hdiamond, ?_⟩
  rw [hdiamond]
  rfl

/-! ## C7: root resolution -/

/-- C7: over a discovered set in which no package depends on itself (as is
the case for sets produced from cargo metadata, where dependency cycles are
impossible), root resolution returns the unique package no other discovered
package depends on, and whenever the number of such candidates differs from
one it fails with an error listing every candidate's name. -/
theorem c7_root_resolution (pkgs : List UniffiPackage)
    (hself : ∀ p ∈ pkgs, p.depends_on p.name = false) :
    (∀ p, Project.uniffi_package pkgs = .ok p →
      p ∈ pkgs
      ∧ (∀ q ∈ pkgs, q.depends_on p.name = false)
      ∧ (∀ r ∈ pkgs, (∀ q ∈ pkgs, q ≠ r → q.depends_on r.name = false) → r = p))
    ∧ ((pkgs.filter
          (fun p => !(pkgs.any (fun other => other.depends_on p.name)))).length ≠ 1 →
        Project.uniffi_package pkgs =
          .error ((pkgs.filter
            (fun p => !(pkgs.any (fun other => other.depends_on p.name)))).map
              UniffiPackage.name)) := by
  constructor
  · intro p hp
    rcases hroots : pkgs.filter
        (fun p => !(pkgs.any (fun other => other.depends_on p.name))) with _ | ⟨a, _ | ⟨b, t⟩⟩
    · simp [Project.uniffi_package, hroots] at hp
    · simp [Project.uniffi_package, hroots] at hp
      subst hp
      have hmem : a ∈ pkgs.filter
          (fun p => !(pkgs.any (fun other => other.depends_on p.name))) := by
        rw [hroots]; exact List.mem_singleton.mpr rfl
      have hmem' : a ∈ pkgs := (List.mem_filter.mp hmem).1
      have hpred : (!(pkgs.any (fun other => other.depends_on a.name))) = true :=
        (List.mem_filter.mp hmem).2
      have hnodep : ∀ q ∈ pkgs, q.depends_on a.name = false := by
        intro q hq
        have hany : (pkgs.any (fun other => other.depends_on a.name)) = false := by
          simpa using hpred
        have := List.any_eq_false.mp hany q hq
        simpa using this
      refine ⟨hmem', hnodep, ?_⟩
      intro r hr hrnodep
      have hrpred : ∀ q ∈ pkgs, q.depends_on r.name = false := by
        intro q hq
        by_cases hqr : q = r
        · subst hqr; exact hself q hq
        · exact hrnodep q hq hqr
      have : r ∈ pkgs.filter
          (fun p => !(pkgs.any (fun other => other.depends_on p.name))) := by
        refine List.mem_filter.mpr ⟨hr, ?_⟩
        simp [List.any_eq_false]
        intro q hq
        simpa using hrpred q hq
      rw [hroots] at this
      exact List.mem_singleton.mp this
    · simp [Project.uniffi_package, hroots] at hp
  · intro hlen
    rcases hroots : pkgs.filter
        (fun p => !(pkgs.any (fun other => other.depends_on p.name))) with _ | ⟨a, _ | ⟨b, t⟩⟩
    · simp [Project.uniffi_package, hroots]
    · rw [hroots] at hlen; simp at hlen
    · simp [Project.uniffi_package, hroots]

/-- Witness for C7 on the concrete universe `{A -> B -> C}` (listed root
last, so selection is not by accident of position). -/
theorem c7_root_resolution_witness :
    pkgA ∈ [pkgB, pkgC, pkgA]
    ∧ (∀ q ∈ [pkgB, pkgC, pkgA], q.depends_on pkgA.name = false)
    ∧ (∀ r ∈ [pkgB, pkgC, pkgA],
        (∀ q ∈ [pkgB, pkgC, pkgA], q ≠ r → q.depends_on r.name = false) → r = pkgA) :=
  (c7_root_resolution [pkgB, pkgC, pkgA] (by decide)).1 pkgA rfl

/-! ## C10: the two root resolutions agree -/

/-- C10: whenever the build path's `Project::uniffi_package` succeeds (the
discovered set has exactly one package that no discovered package depends
on), the manifest-generation path's selection in `generate_swift_package2`
(`find` over the same predicate) picks the same package. -/
theorem c10_root_resolution_agreement (pkgs : List UniffiPackage) (p : UniffiPackage)
    (h : Project.uniffi_package pkgs = .ok p) :
    generate_swift_package2_root pkgs = some p := by
  unfold generate_swift_package2_root
  rw [find?_eq_head_filter]
  rcases hroots : pkgs.filter
      (fun p => !(pkgs.any (fun other => other.depends_on p.name))) with _ | ⟨a, _ | ⟨b, t⟩⟩
  · simp [Project.uniffi_package, hroots] at h
  · simp [Project.uniffi_package, hroots] at h
    subst h
    rw [hroots]
    rfl
  · simp [Project.uniffi_package, hroots] at h

/-- Witness for C10 on the concrete universe `{A -> B -> C}` with the root
listed last. -/
theorem c10_root_resolution_agreement_witness :
    generate_swift_package2_root [pkgB, pkgC, pkgA] = some pkgA :=
  c10_root_resolution_agreement [pkgB, pkgC, pkgA] pkgA rfl

/-! ## Helper lemmas about the filesystem model -/

theorem find?_filter_of_imp {α : Type} (l : List α) (p f : α → Bool)
    (h : ∀ x, p x = true → f x = true) : (l.filter f).find? p = l.find? p := by
  induction l with
  | nil => rfl
  | cons x xs ih =>
    cases hf : f x with
    | true =>
      rw [List.filter_cons_of_pos hf]
      cases hp : p x with
      | true => rw [List.find?_cons_of_pos _ hp, List.find?_cons_of_pos _ hp]
      | false =>
        rw [List.find?_cons_of_neg, List.find?_cons_of_neg]
        · exact ih
        · simp [hp]
        · simp [hp]
    | false =>
      have hp : p x = false := by
        cases hp : p x with
        | true => rw [h x hp] at hf; exact absurd hf (by simp)
        | false => rfl
      rw [List.filter_cons_of_neg (by simp [hf]), List.find?_cons_of_neg _ (by simp [hp])]
      exact ih

theorem find?_filter_of_none {α : Type} (l : List α) (p f : α → Bool)
    (h : ∀ x, p x = true → f x = false) : (l.filter f).find? p = none := by
  induction l with
  | nil => rfl
  | cons x xs ih =>
    cases hf : f x with
    | true =>
      have hp : p x = false := by
        cases hp : p x with
        | true => rw [h x hp] at hf; exact absurd hf (by simp)
        | false => rfl
      rw [List.filter_cons_of_pos hf, List.find?_cons_of_neg _ (by simp [hp])]
      exact ih
    | false =>
      rw [List.filter_cons_of_neg (by simp [hf])]
      exact ih

theorem FS.get_setEntry_self (p : Path) (v : Entry) (st : FS) :
    FS.get (FS.setEntry p v st) p = some v := by
  simp [FS.get, FS.setEntry, List.find?_cons_of_pos]

theorem FS.get_setEntry_ne (p : Path) (v : Entry) (st : FS) (q : Path) (hq : q ≠ p) :
    FS.get (FS.setEntry p v st) q = FS.get st q := by
  unfold FS.get FS.setEntry
  rw [List.find?_cons_of_neg _ (by simp [Ne.symm hq])]
  rw [find?_filter_of_imp]
  intro x hx
  have hx' : x.1 = q := by simpa using hx
  simp [hx', hq]

theorem FS.get_removeDirAll_outside (p : Path) (st : FS) (q : Path)
    (h : p.isPrefixOf q = false) :
    FS.get (FS.removeDirAll p st) q = FS.get st q := by
  unfold FS.get FS.removeDirAll
  rw [find?_filter_of_imp]
  intro x hx
  have hx' : x.1 = q := by simpa using hx
  simp [hx', h]

theorem FS.get_removeDirAll_under (p : Path) (st : FS) (q : Path)
    (h : p.isPrefixOf q = true) :
    FS.get (FS.removeDirAll p st) q = none := by
  unfold FS.get FS.removeDirAll
  rw [find?_filter_of_none]
  · rfl
  · intro x hx
    have hx' : x.1 = q := by simpa using hx
    simp [hx', h]


theorem isPrefixOf_refl (a : Path) : a.isPrefixOf a = true := by
  simp [List.isPrefixOf_iff_prefix]

theorem isPrefixOf_append_right (a b : Path) : a.isPrefixOf (a ++ b) = true := by
  simp [List.isPrefixOf_iff_prefix, List.prefix_append]

theorem isPrefixOf_trans {a b c : Path} (h1 : a.isPrefixOf b = true)
    (h2 : b.isPrefixOf c = true) : a.isPrefixOf c = true := by
  rw [List.isPrefixOf_iff_prefix] at h1 h2 ⊢
  exact h1.trans h2

theorem not_prefix_extend {root a q : Path} (h : root.isPrefixOf q = false)
    (ha : root.isPrefixOf a = true) : a.isPrefixOf q = false := by
  cases haq : a.isPrefixOf q with
  | false => rfl
  | true =>
    rw [isPrefixOf_trans ha haq] at h
    exact absurd h (by simp)

theorem ne_of_not_under {root a q : Path} (h : root.isPrefixOf q = false)
    (ha : root.isPrefixOf a = true) : q ≠ a := by
  intro hq
  subst hq
  rw [ha] at h
  exact absurd h (by simp)

theorem FS.get_nil (q : Path) : FS.get [] q = none := rfl

theorem FS.get_cons (e : Path × Entry) (st : FS) (q : Path) :
    FS.get (e :: st) q = if e.1 = q then some e.2 else FS.get st q := by
  by_cases h : e.1 = q
  · unfold FS.get
    rw [List.find?_cons_of_pos _ (by simp [h]), if_pos h]
    rfl
  · unfold FS.get
    rw [List.find?_cons_of_neg _ (by simp [h]), if_neg h]

theorem FS.get_rename_outside (src dst : Path) (st : FS) (q : Path)
    (hsrc : src.isPrefixOf q = false) (hdst : dst.isPrefixOf q = false) :
    FS.get (FS.rename src dst st) q = FS.get st q := by
  have hqdst : q ≠ dst := by
    intro hq
    subst hq
    rw [isPrefixOf_refl] at hdst
    exact absurd hdst (by simp)
  induction st with
  | nil => rfl
  | cons e st ih =>
    by_cases he : e.1 = dst
    · have h1 : FS.rename src dst (e :: st) = FS.rename src dst st := by
        unfold FS.rename
        rw [List.filter_cons_of_neg (by simp [he])]
      rw [h1, ih, FS.get_cons, if_neg (by rw [he]; exact fun hh => hqdst hh.symm)]
    · have h1 : FS.rename src dst (e :: st) =
          (if src.isPrefixOf e.1 then (dst ++ e.1.drop src.length, e.2) else e) ::
            FS.rename src dst st := by
        unfold FS.rename
        rw [List.filter_cons_of_pos (by simp [he])]
        rfl
      rw [h1]
      by_cases hp : src.isPrefixOf e.1 = true
      · rw [FS.get_cons]
        simp only [hp, if_true]
        have hcond : ¬ (dst ++ e.1.drop src.length = q) := by
          intro hcontra
          have : dst.isPrefixOf q = true := by
            rw [← hcontra]
            exact isPrefixOf_append_right dst _
          rw [this] at hdst
          exact absurd hdst (by simp)
        rw [if_neg hcond, ih, FS.get_cons]
        rw [if_neg (fun hh : e.1 = q => by
          rw [hh] at hp
          rw [hp] at hsrc
          exact absurd hsrc (by simp))]
      · have hp' : src.isPrefixOf e.1 = false := by
          cases hpp : src.isPrefixOf e.1 with
          | true => exact absurd hpp hp
          | false => rfl
        rw [FS.get_cons]
        simp only [hp', Bool.false_eq_true, if_false]
        rw [FS.get_cons, ih]

/-! ## Running the monadic primitives -/

theorem FsM.run_bind_ok {α β : Type} (m : FsM α) (f : α → FsM β) {st st1 : FS} {a : α}
    (h : m st = (Except.ok a, st1)) : (m >>= f) st = f a st1 := by
  rw [FsM.run_bind, h]

theorem FsM.run_bind_error {α β : Type} (m : FsM α) (f : α → FsM β) {st st1 : FS} {e : Err}
    (h : m st = (Except.error e, st1)) : (m >>= f) st = (Except.error e, st1) := by
  rw [FsM.run_bind, h]

theorem run_getFS (st : FS) : getFS st = (Except.ok st, st) := rfl

theorem run_modifyFS (f : FS → FS) (st : FS) : (modifyFS f) st = (Except.ok (), f st) := rfl

theorem run_throwMsg {α : Type} (s : String) (st : FS) :
    (throwMsg (α := α) s) st = (Except.error (.msg s), st) := rfl

theorem run_panicF {α : Type} (st : FS) :
    (panicF (α := α)) st = (Except.error .panic, st) := rfl

theorem run_recreate_dir (p : Path) (st : FS) :
    (recreate_dir p) st = (Except.ok (), FS.setEntry p Entry.dir (FS.removeDirAll p st)) := rfl

theorem run_renameM (src dst : Path) (st : FS) :
    (renameM src dst) st = (Except.ok (), FS.rename src dst st) := rfl

theorem run_copy_file (src dst : Path) (st : FS) (c : String)
    (h : FS.get st src = some (Entry.file c)) :
    (copy src dst) st = (Except.ok (), FS.setEntry dst (Entry.file c) st) := by
  unfold copy
  rw [h]

theorem run_readDir_dir (p : Path) (st : FS) (h : FS.get st p = some Entry.dir) :
    (readDir p) st = (Except.ok (FS.children st p), st) := by
  unfold readDir
  rw [if_pos h]

/-! ## State-invariance of the read-only operations -/

theorem run_exists_check (path : Path) (st : FS) :
    ((getFS >>= fun stx =>
      if (FS.get stx path).isSome = true then pure path
      else throwMsg "Headers not found") st).2 = st := by
  by_cases hc : (FS.get st path).isSome = true
  · rw [FsM.run_bind, run_getFS]
    show ((if (FS.get st path).isSome = true then pure path
      else throwMsg "Headers not found") st).2 = st
    rw [if_pos hc]
    rfl
  · rw [FsM.run_bind, run_getFS]
    show ((if (FS.get st path).isSome = true then pure path
      else throwMsg "Headers not found") st).2 = st
    rw [if_neg hc]
    rfl

theorem readDir_state (p : Path) (st : FS) : ((readDir p) st).2 = st := by
  unfold readDir
  split <;> rfl

theorem files_with_extension_state (p : Path) (ext : String) (st : FS) :
    ((files_with_extension p ext) st).2 = st := by
  unfold files_with_extension
  rw [FsM.run_bind]
  rcases h : (readDir p) st with ⟨r, st2⟩
  have hst2 : st2 = st := by
    have := readDir_state p st
    rw [h] at this
    exact this
  subst hst2
  cases r <;> rfl

theorem built_libraries_state (s : Slice) (cargo : Path) (st : FS) :
    ((s.built_libraries cargo) st).2 = st :=
  files_with_extension_state _ _ st

theorem swift_bindings_dir_state (g : LibraryGroup) (cargo : Path) (st : FS) :
    ((g.swift_bindings_dir cargo) st).2 = st := by
  unfold LibraryGroup.swift_bindings_dir
  cases hs : g.slices.head? with
  | none => rfl
  | some slice =>
    exact run_exists_check (slice.built_product_dir cargo ++ ["swift-bindings"]) st

theorem headers_dir_state (g : LibraryGroup) (cargo : Path) (st : FS) :
    ((g.headers_dir cargo) st).2 = st := by
  unfold LibraryGroup.headers_dir
  rw [FsM.run_bind]
  rcases h : (g.swift_bindings_dir cargo) st with ⟨r, st2⟩
  have hst2 : st2 = st := by
    have := swift_bindings_dir_state g cargo st
    rw [h] at this
    exact this
  rw [hst2]
  cases r with
  | error e => rfl
  | ok base => exact run_exists_check (base ++ ["headers"]) st

theorem swift_binding_files_state (g : LibraryGroup) (cargo : Path) (st : FS) :
    ((g.swift_binding_files cargo) st).2 = st := by
  unfold LibraryGroup.swift_binding_files
  rw [FsM.run_bind]
  rcases h : (g.swift_bindings_dir cargo) st with ⟨r, st2⟩
  have hst2 : st2 = st := by
    have := swift_bindings_dir_state g cargo st
    rw [h] at this
    exact this
  rw [hst2]
  cases r with
  | error e => rfl
  | ok dir => exact files_with_extension_state dir "swift" st

/-! ## C5: exactly one artifact per slice -/

/-- C5: staging a slice's artifact panics (a fatal error, never a silently
chosen file) whenever the number of `.a` candidates in the slice's build
output directory is not exactly one (zero or several); with exactly one
candidate, that candidate's contents are copied to the staged path
`temp_dir/<target>/<library_file_name>.a`, which is returned. -/
theorem c5_slice_artifact_ambiguity (s : Slice) (cargo : Path) (name : String)
    (temp : Path) (st : FS) (libs : List Path) (st1 : FS)
    (h : (s.built_libraries cargo) st = (.ok libs, st1)) :
    (libs.length ≠ 1 → ((s.create cargo name temp) st).1 = .error .panic)
    ∧ (∀ lib c, libs = [lib] →
        FS.get st lib = some (Entry.file c) →
        (temp ++ [s.target]).isPrefixOf lib = false →
        (s.create cargo name temp) st =
          (.ok (temp ++ [s.target] ++ [name ++ ".a"]),
           FS.setEntry (temp ++ [s.target] ++ [name ++ ".a"]) (Entry.file c)
             (FS.setEntry (temp ++ [s.target]) Entry.dir
               (FS.removeDirAll (temp ++ [s.target]) st)))) := by
  have hst1 : st1 = st := by
    have := built_libraries_state s cargo st
    rw [h] at this
    exact this
  rw [hst1] at h
  constructor
  · intro hlen
    unfold Slice.create
    rw [FsM.run_bind, h]
    rcases libs with _ | ⟨lib, _ | ⟨l2, rest⟩⟩
    · rfl
    · simp at hlen
    · rfl
  · intro lib c hlibs hget hpfx
    subst hlibs
    unfold Slice.create
    rw [FsM.run_bind, h]
    have hgetR : FS.get (FS.setEntry (temp ++ [s.target]) Entry.dir
        (FS.removeDirAll (temp ++ [s.target]) st)) lib = some (Entry.file c) := by
      rw [FS.get_setEntry_ne _ _ _ _ (ne_of_not_under hpfx (isPrefixOf_refl _)),
        FS.get_removeDirAll_outside _ _ _ hpfx, hget]
    simp [FsM.run_bind, run_getFS, hget, run_recreate_dir, copy, hgetR, FsM.run_pure]

/-- Witness for C5 on a concrete filesystem holding exactly one candidate
static library. -/
theorem c5_slice_artifact_ambiguity_witness :
    ((Slice.mk "arm64-apple-ios" CargoProfile.Release).create ["t"] "M" ["tmp"]) fsOk =
      (.ok ((["tmp"] : Path) ++ ["arm64-apple-ios"] ++ ["M" ++ ".a"]),
       FS.setEntry ((["tmp"] : Path) ++ ["arm64-apple-ios"] ++ ["M" ++ ".a"]) (Entry.file "LIB")
         (FS.setEntry ((["tmp"] : Path) ++ ["arm64-apple-ios"]) Entry.dir
           (FS.removeDirAll ((["tmp"] : Path) ++ ["arm64-apple-ios"]) fsOk))) :=
  (c5_slice_artifact_ambiguity (Slice.mk "arm64-apple-ios" CargoProfile.Release)
      ["t"] "M" ["tmp"] fsOk [["t", "arm64-apple-ios", "release", "libwp.a"]] fsOk rfl).2
    ["t", "arm64-apple-ios", "release", "libwp.a"] "LIB" rfl (by decide) (by decide)

/-! ## C2: the header-patching step -/

/-- C2 (refuting evaluation): patching a bundle whose platform `Headers`
folder holds the static library `libFoo.a` and the loose header `wp.h`
succeeds and moves BOTH files — including the `.a` file — into the
module-named subdirectory `Headers/Mod`.  The source's filter
`f.path().ends_with(".a")` is Rust's componentwise `Path::ends_with`, which
is false for any regular file name such as `libFoo.a`, so the `.a` file is
not left untouched in place. -/
theorem c2_patch_moves_dot_a_file :
    ((XCFramework.patch_xcframework ["b"] "Mod") fsPatch).1 = .ok ()
    ∧ FS.get (((XCFramework.patch_xcframework ["b"] "Mod") fsPatch).2)
        ["b", "ios", "Headers", "libFoo.a"] = none
    ∧ FS.get (((XCFramework.patch_xcframework ["b"] "Mod") fsPatch).2)
        ["b", "ios", "Headers", "Mod", "libFoo.a"] = some (Entry.file "A")
    ∧ FS.get (((XCFramework.patch_xcframework ["b"] "Mod") fsPatch).2)
        ["b", "ios", "Headers", "wp.h"] = none
    ∧ FS.get (((XCFramework.patch_xcframework ["b"] "Mod") fsPatch).2)
        ["b", "ios", "Headers", "Mod", "wp.h"] = some (Entry.file "H") := by
  refine ⟨?_, ?_, ?_, ?_, ?_⟩ <;> rfl

/-! ## C9: zero requested triples -/

/-- C9: with zero target triples the grouping step produces zero
`LibraryGroup`s, and — provided the external bundler and the patch step
themselves succeed — the engine's `self.libraries[0]` indexing makes
`XCFramework::create` terminate in an out-of-bounds panic rather than a
reported error or an empty bundle. -/
theorem c9_empty_triples_panic :
    (∀ env profile, XCFramework.new env ([] : List String) profile = .ok ⟨[]⟩)
    ∧ (∀ (env : Env) (cargo : Path) (name : String) (temp dest swift : Path)
        (st st1 st2 : FS) (td : Path),
        (XCFramework.create_xcframework ⟨[]⟩ env cargo name temp) st = (.ok td, st1) →
        (XCFramework.patch_xcframework td name) st1 = (.ok (), st2) →
        ((XCFramework.create ⟨[]⟩ env cargo name temp dest swift) st).1 = .error .panic) := by
  constructor
  · intro env profile
    rfl
  · intro env cargo name temp dest swift st st1 st2 td h1 h2
    unfold XCFramework.create
    rw [FsM.run_bind_ok _ _ h1, FsM.run_bind_ok _ _ h2,
      FsM.run_bind_ok _ _ (run_recreate_dir dest st2),
      FsM.run_bind_ok _ _ (run_renameM td dest _),
      FsM.run_bind_ok _ _ (run_recreate_dir swift _)]
    rfl

/-- Witness for C9: a concrete run with zero groups in which the bundler
oracle and the patch step succeed, ending in the panic. -/
theorem c9_empty_triples_panic_witness :
    ((XCFramework.create ⟨[]⟩ envOk ["t"] "M" ["tmp"] ["d"] ["s"]) []).1 = .error .panic :=
  (c9_empty_triples_panic).2 envOk ["t"] "M" ["tmp"] ["d"] ["s"] []
    [(["tmp", "M.xcframework", "f.h"], Entry.file "H"), (["tmp", "M.xcframework"], Entry.dir)]
    [(["tmp", "M.xcframework", "f.h"], Entry.file "H"), (["tmp", "M.xcframework"], Entry.dir)]
    ["tmp", "M.xcframework"] rfl rfl

/-! ## C1: grouping is an equivalence partition -/

theorem FsM.bind_ok_inv {α β : Type} {m : FsM α} {f : α → FsM β} {st st' : FS} {b : β}
    (h : (m >>= f) st = (Except.ok b, st')) :
    ∃ a st1, m st = (Except.ok a, st1) ∧ f a st1 = (Except.ok b, st') := by
  rcases hm : m st with ⟨r, st1⟩
  cases r with
  | ok a =>
    refine ⟨a, st1, rfl, ?_⟩
    rw [FsM.run_bind, hm] at h
    exact h
  | error e =>
    rw [FsM.run_bind, hm] at h
    exact absurd h (by simp)

theorem insertGroup_map_id (id : LibraryGroupId) (t : String) (pr : CargoProfile) :
    ∀ gs : List LibraryGroup,
      (insertGroup id t pr gs).map LibraryGroup.id =
        if id ∈ gs.map LibraryGroup.id then gs.map LibraryGroup.id
        else gs.map LibraryGroup.id ++ [id] := by
  intro gs
  induction gs with
  | nil => simp [insertGroup]
  | cons g gs ih =>
    by_cases h : g.id = id
    · simp only [insertGroup, if_pos h]
      simp [h]
    · simp only [insertGroup, if_neg h]
      simp only [List.map_cons, ih]
      by_cases hm : id ∈ gs.map LibraryGroup.id
      · simp [hm, h]
      · simp [hm, h, Ne.symm h]

theorem insertGroup_nodup (id : LibraryGroupId) (t : String) (pr : CargoProfile)
    (gs : List LibraryGroup) (h : (gs.map LibraryGroup.id).Nodup) :
    ((insertGroup id t pr gs).map LibraryGroup.id).Nodup := by
  rw [insertGroup_map_id]
  split
  · exact h
  · rename_i hm
    simp [List.nodup_append, h, hm]

theorem insertGroup_forall (P : LibraryGroup → Prop) (id : LibraryGroupId) (t : String)
    (pr : CargoProfile) :
    ∀ gs : List LibraryGroup,
      (∀ g ∈ gs, P g) →
      P ⟨id, [⟨t, pr⟩]⟩ →
      (∀ g ∈ gs, g.id = id → P ⟨g.id, g.slices ++ [⟨t, pr⟩]⟩) →
      ∀ g ∈ insertGroup id t pr gs, P g := by
  intro gs
  induction gs with
  | nil =>
    intro _ hnew _ g hg
    simp only [insertGroup, List.mem_singleton] at hg
    subst hg
    exact hnew
  | cons a gs ih =>
    intro hall hnew hext g hg
    by_cases h : a.id = id
    · simp only [insertGroup, if_pos h, List.mem_cons] at hg
      rcases hg with hg | hg
      · subst hg
        exact hext a (List.mem_cons_self a gs) h
      · exact hall g (List.mem_cons_of_mem a hg)
    · simp only [insertGroup, if_neg h, List.mem_cons] at hg
      rcases hg with hg | hg
      · subst hg
        exact hall g (List.mem_cons_self g gs)
      · exact ih (fun g' hg' => hall g' (List.mem_cons_of_mem a hg')) hnew
          (fun g' hg' => hext g' (List.mem_cons_of_mem a hg')) g hg

theorem insertGroup_mem_new (id : LibraryGroupId) (t : String) (pr : CargoProfile) :
    ∀ gs : List LibraryGroup,
      ∃ g ∈ insertGroup id t pr gs, g.id = id ∧ (⟨t, pr⟩ : Slice) ∈ g.slices := by
  intro gs
  induction gs with
  | nil => exact ⟨⟨id, [⟨t, pr⟩]⟩, by simp [insertGroup], rfl, by simp⟩
  | cons a gs ih =>
    by_cases h : a.id = id
    · refine ⟨⟨a.id, a.slices ++ [⟨t, pr⟩]⟩, ?_, h, ?_⟩
      · simp [insertGroup, h]
      · simp
    · obtain ⟨g, hg, hgid, hgs⟩ := ih
      exact ⟨g, by simp only [insertGroup, if_neg h, List.mem_cons]; exact Or.inr hg,
        hgid, hgs⟩

theorem insertGroup_mem_old (id : LibraryGroupId) (t : String) (pr : CargoProfile) :
    ∀ (gs : List LibraryGroup) (g : LibraryGroup),
      g ∈ gs →
      ∃ g' ∈ insertGroup id t pr gs, g'.id = g.id ∧ ∀ s ∈ g.slices, s ∈ g'.slices := by
  intro gs
  induction gs with
  | nil =>
    intro g hg
    simp at hg
  | cons a gs ih =>
    intro g hg
    by_cases h : a.id = id
    · rcases List.mem_cons.mp hg with hga | hgs
      · subst hga
        refine ⟨⟨g.id, g.slices ++ [⟨t, pr⟩]⟩, ?_, rfl, fun s hs => by simp [hs]⟩
        simp [insertGroup, h]
      · refine ⟨g, ?_, rfl, fun s hs => hs⟩
        simp only [insertGroup, if_pos h, List.mem_cons]
        exact Or.inr hgs
    · rcases List.mem_cons.mp hg with hga | hgs
      · subst hga
        refine ⟨g, ?_, rfl, fun s hs => hs⟩
        simp only [insertGroup, if_neg h, List.mem_cons]
        exact Or.inl trivial
      · obtain ⟨g', hg', hid, hsub⟩ := ih g hgs
        refine ⟨g', ?_, hid, hsub⟩
        simp only [insertGroup, if_neg h, List.mem_cons]
        exact Or.inr hg'

theorem newGroups_spec (env : Env) (profile : CargoProfile) :
    ∀ (targets : List String) (groups out : List LibraryGroup),
      newGroups env profile targets groups = .ok out →
      ((groups.map LibraryGroup.id).Nodup → (out.map LibraryGroup.id).Nodup)
      ∧ ((∀ g ∈ groups, g.slices ≠ [] ∧ ∀ s ∈ g.slices,
            LibraryGroupId.from_target env s.target = .ok g.id ∧ s.profile = profile) →
          ∀ g ∈ out, g.slices ≠ [] ∧ ∀ s ∈ g.slices,
            LibraryGroupId.from_target env s.target = .ok g.id ∧ s.profile = profile)
      ∧ (∀ g ∈ groups, ∃ g' ∈ out, g'.id = g.id ∧ ∀ s ∈ g.slices, s ∈ g'.slices)
      ∧ (∀ t id, t ∈ targets → LibraryGroupId.from_target env t = .ok id →
          ∃ g ∈ out, g.id = id ∧ (⟨t, profile⟩ : Slice) ∈ g.slices) := by
  intro targets
  induction targets with
  | nil =>
    intro groups out h
    simp only [newGroups] at h
    injection h with h
    subst h
    refine ⟨fun hn => hn, fun ha => ha, fun g hg => ⟨g, hg, rfl, fun s hs => hs⟩, ?_⟩
    intro t id ht _
    simp at ht
  | cons t0 rest ih =>
    intro groups out h
    simp only [newGroups] at h
    rcases hft : LibraryGroupId.from_target env t0 with e | id0
    · rw [hft] at h
      simp at h
    · rw [hft] at h
      obtain ⟨hnodup, hall, hmono, hmem⟩ := ih (insertGroup id0 t0 profile groups) out h
      refine ⟨?_, ?_, ?_, ?_⟩
      · intro hn
        exact hnodup (insertGroup_nodup _ _ _ _ hn)
      · intro ha
        apply hall
        refine insertGroup_forall _ id0 t0 profile groups ha ⟨by simp, ?_⟩ ?_
        · intro s hs
          simp only [List.mem_singleton] at hs
          subst hs
          exact ⟨hft, rfl⟩
        · intro g hg hgid
          obtain ⟨hne, hsl⟩ := ha g hg
          refine ⟨by simp, ?_⟩
          intro s hs
          rcases List.mem_append.mp hs with hs | hs
          · exact hsl s hs
          · simp only [List.mem_singleton] at hs
            subst hs
            exact ⟨hgid ▸ hft, rfl⟩
      · intro g hg
        obtain ⟨g', hg', hid, hsub⟩ := insertGroup_mem_old id0 t0 profile groups g hg
        obtain ⟨g'', hg'', hid2, hsub2⟩ := hmono g' hg'
        exact ⟨g'', hg'', hid2.trans hid, fun s hs => hsub2 s (hsub s hs)⟩
      · intro t id ht hfti
        rcases List.mem_cons.mp ht with h0 | hrest
        · subst h0
          rw [hft] at hfti
          injection hfti with hid
          subst hid
          obtain ⟨g, hgmem, hgid, hgs⟩ := insertGroup_mem_new id0 t profile groups
          obtain ⟨g', hg', hid2, hsub2⟩ := hmono g hgmem
          exact ⟨g', hg', hid2.trans hgid, hsub2 _ hgs⟩
        · exact hmem t id hrest hfti

theorem libraryArgsAux_length (env : Env) (cargo : Path) (name : String) (temp : Path) :
    ∀ (gs : List LibraryGroup) (st : FS) (args : List (Path × Path)) (st' : FS),
      (libraryArgsAux env cargo name temp gs) st = (.ok args, st') →
      args.length = gs.length := by
  intro gs
  induction gs with
  | nil =>
    intro st args st' h
    simp only [libraryArgsAux] at h
    rw [FsM.run_pure] at h
    injection h with h1 h2
    injection h1 with h1
    rw [← h1]
    rfl
  | cons g gs ih =>
    intro st args st' h
    simp only [libraryArgsAux] at h
    obtain ⟨lib, st1, hm1, h⟩ := FsM.bind_ok_inv h
    obtain ⟨header, st2, hm2, h⟩ := FsM.bind_ok_inv h
    obtain ⟨tail, st3, hm3, h⟩ := FsM.bind_ok_inv h
    rw [FsM.run_pure] at h
    injection h with h1 h2
    injection h1 with h1
    rw [← h1]
    simp [ih st2 tail st3 hm3]

/-- C1: grouping of the requested triples is a true equivalence partition by
platform identity.  When `XCFramework::new` succeeds: the group identities
are pairwise distinct (so triples with differing identity land in different
groups, and there is at most one group per identity); every group is
non-empty and all its member slices resolve to the group's identity with the
requested profile; every requested triple's slice is placed in a group
carrying exactly the triple's identity (so triples with equal identity land
in the same group); and the `(-library, -headers)` argument list handed to
the external bundler carries exactly one pair per group — hence exactly one
pair per distinct identity. -/
theorem c1_grouping_partition (env : Env) (targets : List String) (profile : CargoProfile)
    (x : XCFramework) (hx : XCFramework.new env targets profile = .ok x) :
    (x.libraries.map LibraryGroup.id).Nodup
    ∧ (∀ g ∈ x.libraries, g.slices ≠ [] ∧ ∀ s ∈ g.slices,
        LibraryGroupId.from_target env s.target = .ok g.id ∧ s.profile = profile)
    ∧ (∀ t id, t ∈ targets → LibraryGroupId.from_target env t = .ok id →
        ∃ g ∈ x.libraries, g.id = id ∧ (⟨t, profile⟩ : Slice) ∈ g.slices)
    ∧ (∀ (cargo : Path) (name : String) (temp : Path) (st : FS)
        (args : List (Path × Path)) (st' : FS),
        (x.library_args env cargo name temp) st = (.ok args, st') →
        args.length = x.libraries.length) := by
  unfold XCFramework.new at hx
  rcases hng : newGroups env profile targets [] with e | groups
  · rw [hng] at hx
    simp at hx
  · rw [hng] at hx
    injection hx with hx
    subst hx
    obtain ⟨hnodup, hall, _, hmem⟩ := newGroups_spec env profile targets [] groups hng
    refine ⟨hnodup (by simp), hall (by simp), ?_, ?_⟩
    · intro t id ht hft
      exact hmem t id ht hft
    · intro cargo name temp st args st' hrun
      exact libraryArgsAux_length env cargo name temp _ st args st' hrun

/-- Witness for C1 on the concrete pair of device triples
`aarch64-apple-ios` and `x86_64-apple-ios`, which share one identity. -/
theorem c1_grouping_partition_witness :
    ((XCFramework.mk [⟨⟨.IOS, false⟩,
        [⟨"aarch64-apple-ios", .Release⟩, ⟨"x86_64-apple-ios", .Release⟩]⟩]).libraries.map
      LibraryGroup.id).Nodup
    ∧ (∀ g ∈ (XCFramework.mk [⟨⟨.IOS, false⟩,
        [⟨"aarch64-apple-ios", .Release⟩, ⟨"x86_64-apple-ios", .Release⟩]⟩]).libraries,
        g.slices ≠ [] ∧ ∀ s ∈ g.slices,
          LibraryGroupId.from_target envOk s.target = .ok g.id
          ∧ s.profile = CargoProfile.Release) := by
  have h := c1_grouping_partition envOk ["aarch64-apple-ios", "x86_64-apple-ios"]
    CargoProfile.Release
    (XCFramework.mk [⟨⟨.IOS, false⟩,
      [⟨"aarch64-apple-ios", .Release⟩, ⟨"x86_64-apple-ios", .Release⟩]⟩]) rfl
  exact ⟨h.1, h.2.1⟩

/-! ## Frame lemmas: which paths an operation can touch

Each lemma below says that running some embedded operation leaves the node
at any path `q` outside the operation's scratch roots unchanged — on the
success AND on the failure path (a failing run still has a final state). -/

theorem not_prefix_of_append {a b rest : Path} (hab : a.isPrefixOf b = false)
    (hba : b.isPrefixOf a = false) : a.isPrefixOf (b ++ rest) = false := by
  cases hc : a.isPrefixOf (b ++ rest) with
  | false => rfl
  | true =>
    exfalso
    have hc' : a <+: b ++ rest := List.isPrefixOf_iff_prefix.mp hc
    have hb' : b <+: b ++ rest := List.prefix_append b rest
    by_cases hlen : a.length ≤ b.length
    · have : a <+: b := List.prefix_of_prefix_length_le hc' hb' hlen
      rw [List.isPrefixOf_iff_prefix.mpr this] at hab
      exact absurd hab (by simp)
    · have : b <+: a := List.prefix_of_prefix_length_le hb' hc' (by omega)
      rw [List.isPrefixOf_iff_prefix.mpr this] at hba
      exact absurd hba (by simp)

theorem FsM.frame_bind {α β : Type} (m : FsM α) (f : α → FsM β) (P : Path → Prop)
    (hm : ∀ st q, P q → FS.get ((m st).2) q = FS.get st q)
    (hf : ∀ a st q, P q → FS.get (((f a) st).2) q = FS.get st q) :
    ∀ st q, P q → FS.get (((m >>= f) st).2) q = FS.get st q := by
  intro st q hq
  rw [FsM.run_bind]
  rcases hms : m st with ⟨r, st1⟩
  have h1 : FS.get st1 q = FS.get st q := by
    have := hm st q hq
    rw [hms] at this
    exact this
  cases r with
  | ok a =>
    show FS.get (((f a) st1)).2 q = FS.get st q
    rw [hf a st1 q hq, h1]
  | error e =>
    show FS.get st1 q = FS.get st q
    exact h1

theorem readDir_ok_inv {p : Path} {st st1 : FS} {a : List (Path × Entry)}
    (h : (readDir p) st = (.ok a, st1)) : a = FS.children st p ∧ st1 = st := by
  unfold readDir at h
  by_cases hc : FS.get st p = some Entry.dir
  · rw [if_pos hc] at h
    injection h with h1 h2
    injection h1 with h1
    exact ⟨h1.symm, h2.symm⟩
  · rw [if_neg hc] at h
    exact absurd h (by simp)

theorem children_are_under {st : FS} {p : Path} {e : Path × Entry}
    (h : e ∈ FS.children st p) : p.isPrefixOf e.1 = true := by
  unfold FS.children at h
  have := (List.mem_filter.mp h).2
  exact (Bool.and_eq_true _ _ |>.mp this).2

theorem mem_removeDirAll_outside {p : Path} {st : FS} {e : Path × Entry}
    (h : e ∈ FS.removeDirAll p st) : p.isPrefixOf e.1 = false := by
  unfold FS.removeDirAll at h
  have := (List.mem_filter.mp h).2
  simpa using this

theorem clean_after_recreate (p : Path) (st : FS) :
    ∀ e ∈ FS.setEntry p Entry.dir (FS.removeDirAll p st),
      p.isPrefixOf e.1 = true → e.1 = p := by
  intro e he hpe
  unfold FS.setEntry at he
  rcases List.mem_cons.mp he with he | he
  · rw [he]
  · have hmem : e ∈ FS.removeDirAll p st := (List.mem_filter.mp he).1
    rw [mem_removeDirAll_outside hmem] at hpe
    exact absurd hpe (by simp)

theorem get_foldl_setEntry_outside (td : Path) (files : List (Path × String)) (q : Path)
    (h : td.isPrefixOf q = false) :
    ∀ base : FS,
      FS.get (files.foldl (fun a rc => FS.setEntry (td ++ rc.1) (Entry.file rc.2) a) base) q =
        FS.get base q := by
  induction files with
  | nil => intro base; rfl
  | cons rc files ih =>
    intro base
    rw [List.foldl_cons, ih]
    exact FS.get_setEntry_ne _ _ _ _ (ne_of_not_under h (isPrefixOf_append_right td rc.1))

theorem frame_recreate_dir (p : Path) (st : FS) (q : Path) (h : p.isPrefixOf q = false) :
    FS.get (((recreate_dir p) st).2) q = FS.get st q := by
  rw [run_recreate_dir]
  show FS.get (FS.setEntry p Entry.dir (FS.removeDirAll p st)) q = _
  rw [FS.get_setEntry_ne _ _ _ _ (ne_of_not_under h (isPrefixOf_refl p)),
    FS.get_removeDirAll_outside _ _ _ h]

theorem frame_copy (src dst : Path) (st : FS) (q : Path) (h : q ≠ dst) :
    FS.get (((copy src dst) st).2) q = FS.get st q := by
  unfold copy
  cases hg : FS.get st src with
  | none => rfl
  | some e =>
    cases e with
    | file c =>
      show FS.get (FS.setEntry dst (Entry.file c) st) q = _
      exact FS.get_setEntry_ne _ _ _ _ h
    | dir => rfl

theorem frame_renameM (src dst : Path) (st : FS) (q : Path)
    (hs : src.isPrefixOf q = false) (hd : dst.isPrefixOf q = false) :
    FS.get (((renameM src dst) st).2) q = FS.get st q := by
  rw [run_renameM]
  exact FS.get_rename_outside src dst st q hs hd

theorem frame_copySwiftFiles (swift : Path) (files : List Path) :
    ∀ (st : FS) (q : Path), swift.isPrefixOf q = false →
      FS.get (((copySwiftFiles swift files) st).2) q = FS.get st q := by
  induction files with
  | nil => intro st q hq; rfl
  | cons f files ih =>
    intro st q hq
    show FS.get (((copy f (swift ++ [fileName f]) >>= fun _ =>
      copySwiftFiles swift files) st).2) q = FS.get st q
    refine FsM.frame_bind _ _ (fun q => swift.isPrefixOf q = false) ?_ ?_ st q hq
    · intro st' q' hq'
      exact frame_copy _ _ _ _ (ne_of_not_under hq' (isPrefixOf_append_right swift _))
    · intro a st' q' hq'
      exact ih st' q' hq'

theorem frame_slice_create (s : Slice) (cargo : Path) (name : String) (temp : Path) :
    ∀ (st : FS) (q : Path), temp.isPrefixOf q = false →
      FS.get (((s.create cargo name temp) st).2) q = FS.get st q := by
  intro st q hq
  unfold Slice.create
  refine FsM.frame_bind _ _ (fun q => temp.isPrefixOf q = false) ?_ ?_ st q hq
  · intro st' q' hq'
    rw [built_libraries_state]
  · intro libs st' q' hq'
    rcases libs with _ | ⟨lib, _ | ⟨l2, rest⟩⟩
    · rfl
    · refine FsM.frame_bind _ _ (fun q => temp.isPrefixOf q = false) ?_ ?_ st' q' hq'
      · intro st'' q'' hq''
        rfl
      · intro stx st'' q'' hq''
        by_cases hc : (FS.get stx lib).isSome = true
        · rw [if_pos hc]
          refine FsM.frame_bind _ _ (fun q => temp.isPrefixOf q = false) ?_ ?_ st'' q'' hq''
          · intro st3 q3 hq3
            exact frame_recreate_dir _ _ _
              (not_prefix_extend hq3 (isPrefixOf_append_right temp [s.target]))
          · intro a st3 q3 hq3
            refine FsM.frame_bind _ _ (fun q => temp.isPrefixOf q = false) ?_ ?_ st3 q3 hq3
            · intro st4 q4 hq4
              refine frame_copy _ _ _ _ (ne_of_not_under hq4 ?_)
              exact isPrefixOf_trans (isPrefixOf_append_right temp [s.target])
                (isPrefixOf_append_right (temp ++ [s.target]) [name ++ ".a"])
            · intro a' st4 q4 hq4
              rfl
        · rw [if_neg hc]
          rfl
    · rfl

theorem frame_sliceLibs (cargo : Path) (name : String) (temp : Path) :
    ∀ (slices : List Slice) (st : FS) (q : Path), temp.isPrefixOf q = false →
      FS.get (((sliceLibs cargo name temp slices) st).2) q = FS.get st q := by
  intro slices
  induction slices with
  | nil => intro st q hq; rfl
  | cons s rest ih =>
    intro st q hq
    show FS.get (((s.create cargo name temp >>= fun lib =>
      sliceLibs cargo name temp rest >>= fun libs => pure (lib :: libs)) st).2) q = FS.get st q
    refine FsM.frame_bind _ _ (fun q => temp.isPrefixOf q = false) ?_ ?_ st q hq
    · intro st' q' hq'
      exact frame_slice_create s cargo name temp st' q' hq'
    · intro lib st' q' hq'
      refine FsM.frame_bind _ _ (fun q => temp.isPrefixOf q = false) ?_ ?_ st' q' hq'
      · intro st'' q'' hq''
        exact ih st'' q'' hq''
      · intro libs st'' q'' hq''
        rfl

theorem frame_group_create (g : LibraryGroup) (env : Env) (cargo : Path) (name : String)
    (temp : Path) :
    ∀ (st : FS) (q : Path), temp.isPrefixOf q = false →
      FS.get (((g.create env cargo name temp) st).2) q = FS.get st q := by
  intro st q hq
  unfold LibraryGroup.create
  refine FsM.frame_bind _ _ (fun q => temp.isPrefixOf q = false) ?_ ?_ st q hq
  · intro st' q' hq'
    exact frame_sliceLibs cargo name temp g.slices st' q' hq'
  · intro libraries st' q' hq'
    refine FsM.frame_bind _ _ (fun q => temp.isPrefixOf q = false) ?_ ?_ st' q' hq'
    · intro st'' q'' hq''
      exact frame_recreate_dir _ _ _
        (not_prefix_extend hq'' (isPrefixOf_append_right temp [g.id.display]))
    · intro a st'' q'' hq''
      refine FsM.frame_bind _ _ (fun q => temp.isPrefixOf q = false) ?_ ?_ st'' q'' hq''
      · intro st3 q3 hq3
        rfl
      · intro stx st3 q3 hq3
        cases hl : env.lipo libraries stx with
        | error e => rfl
        | ok merged =>
          refine FsM.frame_bind _ _ (fun q => temp.isPrefixOf q = false) ?_ ?_ st3 q3 hq3
          · intro st4 q4 hq4
            rw [run_modifyFS]
            refine FS.get_setEntry_ne _ _ _ _ (ne_of_not_under hq4 ?_)
            exact isPrefixOf_trans (isPrefixOf_append_right temp [g.id.display])
              (isPrefixOf_append_right (temp ++ [g.id.display]) [name ++ ".a"])
          · intro a' st4 q4 hq4
            rfl

theorem frame_libraryArgsAux (env : Env) (cargo : Path) (name : String) (temp : Path) :
    ∀ (gs : List LibraryGroup) (st : FS) (q : Path), temp.isPrefixOf q = false →
      FS.get (((libraryArgsAux env cargo name temp gs) st).2) q = FS.get st q := by
  intro gs
  induction gs with
  | nil => intro st q hq; rfl
  | cons g gs ih =>
    intro st q hq
    show FS.get (((g.create env cargo name temp >>= fun lib =>
      g.headers_dir cargo >>= fun header =>
      libraryArgsAux env cargo name temp gs >>= fun tail =>
      pure ((lib, header) :: tail)) st).2) q = FS.get st q
    refine FsM.frame_bind _ _ (fun q => temp.isPrefixOf q = false) ?_ ?_ st q hq
    · intro st' q' hq'
      exact frame_group_create g env cargo name temp st' q' hq'
    · intro lib st' q' hq'
      refine FsM.frame_bind _ _ (fun q => temp.isPrefixOf q = false) ?_ ?_ st' q' hq'
      · intro st'' q'' hq''
        rw [headers_dir_state]
      · intro header st'' q'' hq''
        refine FsM.frame_bind _ _ (fun q => temp.isPrefixOf q = false) ?_ ?_ st'' q'' hq''
        · intro st3 q3 hq3
          exact ih st3 q3 hq3
        · intro tail st3 q3 hq3
          rfl

theorem frame_create_xcframework (x : XCFramework) (env : Env) (cargo : Path)
    (name : String) (temp : Path) :
    ∀ (st : FS) (q : Path), temp.isPrefixOf q = false →
      FS.get (((x.create_xcframework env cargo name temp) st).2) q = FS.get st q := by
  intro st q hq
  unfold XCFramework.create_xcframework
  have htd : temp.isPrefixOf (temp ++ [name ++ ".xcframework"]) = true :=
    isPrefixOf_append_right temp [name ++ ".xcframework"]
  refine FsM.frame_bind _ _ (fun q => temp.isPrefixOf q = false) ?_ ?_ st q hq
  · intro st' q' hq'
    rw [run_modifyFS]
    exact FS.get_removeDirAll_outside _ _ _ (not_prefix_extend hq' htd)
  · intro a st' q' hq'
    refine FsM.frame_bind _ _ (fun q => temp.isPrefixOf q = false) ?_ ?_ st' q' hq'
    · intro st'' q'' hq''
      exact frame_libraryArgsAux env cargo name temp x.libraries st'' q'' hq''
    · intro args st'' q'' hq''
      refine FsM.frame_bind _ _ (fun q => temp.isPrefixOf q = false) ?_ ?_ st'' q'' hq''
      · intro st3 q3 hq3
        rfl
      · intro stx st3 q3 hq3
        cases hx : env.xcodebuild args stx with
        | error e => rfl
        | ok files =>
          refine FsM.frame_bind _ _ (fun q => temp.isPrefixOf q = false) ?_ ?_ st3 q3 hq3
          · intro st4 q4 hq4
            rw [run_modifyFS]
            rw [get_foldl_setEntry_outside _ _ _ (not_prefix_extend hq4 htd)]
            exact FS.get_setEntry_ne _ _ _ _ (ne_of_not_under hq4 htd)
          · intro a' st4 q4 hq4
            rfl

theorem frame_patchMoveFiles (R nhd : Path) (hnhd : R.isPrefixOf nhd = true) :
    ∀ (files : List Path), (∀ f ∈ files, R.isPrefixOf f = true) →
      ∀ (st : FS) (q : Path), R.isPrefixOf q = false →
        FS.get (((patchMoveFiles nhd files) st).2) q = FS.get st q := by
  intro files
  induction files with
  | nil => intro _ st q hq; rfl
  | cons f files ih =>
    intro hf st q hq
    show FS.get (((renameM f (nhd ++ [fileName f]) >>= fun _ =>
      patchMoveFiles nhd files) st).2) q = FS.get st q
    refine FsM.frame_bind _ _ (fun q => R.isPrefixOf q = false) ?_ ?_ st q hq
    · intro st' q' hq'
      exact frame_renameM _ _ _ _
        (not_prefix_extend hq' (hf f (List.mem_cons_self f files)))
        (not_prefix_extend hq'
          (isPrefixOf_trans hnhd (isPrefixOf_append_right nhd [fileName f])))
    · intro a st' q' hq'
      exact ih (fun f' hf' => hf f' (List.mem_cons_of_mem f hf')) st' q' hq'

theorem frame_patchPlatformDirs (module : String) (R : Path) :
    ∀ (entries : List (Path × Entry)), (∀ e ∈ entries, R.isPrefixOf e.1 = true) →
      ∀ (st : FS) (q : Path), R.isPrefixOf q = false →
        FS.get (((patchPlatformDirs module entries) st).2) q = FS.get st q := by
  intro entries
  induction entries with
  | nil => intro _ st q hq; rfl
  | cons e rest ih =>
    intro hE st q hq
    have hRe : R.isPrefixOf e.1 = true := hE e (List.mem_cons_self e rest)
    have hRhd : R.isPrefixOf (e.1 ++ ["Headers"]) = true :=
      isPrefixOf_trans hRe (isPrefixOf_append_right e.1 ["Headers"])
    have hRnhd : R.isPrefixOf ((e.1 ++ ["Headers"]) ++ [module]) = true :=
      isPrefixOf_trans hRhd (isPrefixOf_append_right (e.1 ++ ["Headers"]) [module])
    have hIH : ∀ (st' : FS) (q' : Path), R.isPrefixOf q' = false →
        FS.get (((patchPlatformDirs module rest) st').2) q' = FS.get st' q' :=
      ih (fun e' he' => hE e' (List.mem_cons_of_mem e he'))
    by_cases hdir : e.2 = Entry.dir
    · simp only [patchPlatformDirs, if_pos hdir]
      rw [FsM.run_bind]
      rcases hrd : (readDir (e.1 ++ ["Headers"])) st with ⟨r, st1⟩
      have hst1 : st1 = st := by
        have := readDir_state (e.1 ++ ["Headers"]) st
        rw [hrd] at this
        exact this
      cases r with
      | error er =>
        show FS.get st1 q = FS.get st q
        rw [hst1]
      | ok hentries =>
        obtain ⟨hch, _⟩ := readDir_ok_inv hrd
        have hnlf : ∀ f ∈ ((hentries.filter
            (fun f => !(pathEndsWith f.1 [".a"]))).map (fun f => f.1)),
            R.isPrefixOf f = true := by
          intro f hf
          obtain ⟨e', he', hfe⟩ := List.mem_map.mp hf
          subst hfe
          have he'' : e' ∈ hentries := (List.mem_filter.mp he').1
          rw [hch] at he''
          exact isPrefixOf_trans hRhd (children_are_under he'')
        have hrest :
            FS.get (((recreate_dir ((e.1 ++ ["Headers"]) ++ [module]) >>= fun _ =>
              patchMoveFiles ((e.1 ++ ["Headers"]) ++ [module])
                ((hentries.filter (fun f => !(pathEndsWith f.1 [".a"]))).map (fun f => f.1))
              >>= fun _ => patchPlatformDirs module rest) st1).2) q = FS.get st1 q := by
          refine FsM.frame_bind _ _ (fun q => R.isPrefixOf q = false) ?_ ?_ st1 q hq
          · intro st' q' hq'
            exact frame_recreate_dir _ _ _ (not_prefix_extend hq' hRnhd)
          · intro a st' q' hq'
            refine FsM.frame_bind _ _ (fun q => R.isPrefixOf q = false) ?_ ?_ st' q' hq'
            · intro st'' q'' hq''
              exact frame_patchMoveFiles R _ hRnhd _ hnlf st'' q'' hq''
            · intro a' st'' q'' hq''
              exact hIH st'' q'' hq''
        rw [hrest, hst1]
    · simp only [patchPlatformDirs, if_neg hdir]
      exact hIH st q hq

theorem frame_patch_xcframework (td : Path) (module : String) :
    ∀ (st : FS) (q : Path), td.isPrefixOf q = false →
      FS.get (((XCFramework.patch_xcframework td module) st).2) q = FS.get st q := by
  intro st q hq
  unfold XCFramework.patch_xcframework
  rw [FsM.run_bind]
  rcases hrd : (readDir td) st with ⟨r, st1⟩
  have hst1 : st1 = st := by
    have := readDir_state td st
    rw [hrd] at this
    exact this
  cases r with
  | error er =>
    show FS.get st1 q = FS.get st q
    rw [hst1]
  | ok entries =>
    obtain ⟨hch, _⟩ := readDir_ok_inv hrd
    show FS.get (((patchPlatformDirs module entries) st1).2) q = FS.get st q
    rw [hst1]
    refine frame_patchPlatformDirs module td entries ?_ st q hq
    intro e he
    rw [hch] at he
    exact children_are_under he

theorem create_xcframework_ret {x : XCFramework} {env : Env} {cargo : Path} {name : String}
    {temp : Path} {st st1 : FS} {td : Path}
    (h : (x.create_xcframework env cargo name temp) st = (.ok td, st1)) :
    td = temp ++ [name ++ ".xcframework"] := by
  unfold XCFramework.create_xcframework at h
  obtain ⟨a1, st2, hm1, h⟩ := FsM.bind_ok_inv h
  obtain ⟨args, st3, hm2, h⟩ := FsM.bind_ok_inv h
  obtain ⟨stx, st4, hm3, h⟩ := FsM.bind_ok_inv h
  cases hx : env.xcodebuild args stx with
  | error e =>
    rw [hx] at h
    exact absurd h (by simp [run_throwMsg])
  | ok files =>
    rw [hx] at h
    obtain ⟨a2, st5, hm4, h⟩ := FsM.bind_ok_inv h
    rw [FsM.run_pure] at h
    injection h with h1 h2
    injection h1 with h1
    exact h1.symm

/-- Populating a cleared target by a rename: looking below `dst` after
`rename src dst` sees exactly what was below `src` before, provided nothing
other than `dst` itself lay below `dst`. -/
theorem FS.get_rename_dest (src dst rest : Path) (hrest : rest ≠ [])
    (hsd : src.isPrefixOf dst = false) :
    ∀ st : FS, (∀ e ∈ st, dst.isPrefixOf e.1 = true → e.1 = dst) →
      FS.get (FS.rename src dst st) (dst ++ rest) = FS.get st (src ++ rest) := by
  intro st
  induction st with
  | nil => intro _; rfl
  | cons e st ih =>
    intro hclean
    have hcleanrest : ∀ e' ∈ st, dst.isPrefixOf e'.1 = true → e'.1 = dst :=
      fun e' he' => hclean e' (List.mem_cons_of_mem e he')
    by_cases he : e.1 = dst
    · have h1 : FS.rename src dst (e :: st) = FS.rename src dst st := by
        unfold FS.rename
        rw [List.filter_cons_of_neg (by simp [he])]
      have h2 : e.1 ≠ src ++ rest := by
        rw [he]
        intro hc
        have hpre : src.isPrefixOf dst = true := by
          rw [hc]
          exact isPrefixOf_append_right src rest
        rw [hpre] at hsd
        exact absurd hsd (by simp)
      rw [h1, ih hcleanrest, FS.get_cons, if_neg h2]
    · have h1 : FS.rename src dst (e :: st) =
          (if src.isPrefixOf e.1 then (dst ++ e.1.drop src.length, e.2) else e) ::
            FS.rename src dst st := by
        unfold FS.rename
        rw [List.filter_cons_of_pos (by simp [he])]
        rfl
      rw [h1]
      by_cases hp : src.isPrefixOf e.1 = true
      · obtain ⟨tail, htail⟩ := List.isPrefixOf_iff_prefix.mp hp
        rw [FS.get_cons]
        simp only [hp, if_true]
        have hdrop : e.1.drop src.length = tail := by
          rw [← htail]
          exact List.drop_left src tail
        rw [hdrop, FS.get_cons]
        by_cases heq : tail = rest
        · subst heq
          rw [if_pos rfl, if_pos htail.symm]
        · rw [if_neg (fun hc => heq (List.append_cancel_left hc)),
            if_neg (fun hc : e.1 = src ++ rest => heq (by
              rw [← htail] at hc
              exact List.append_cancel_left hc)),
            ih hcleanrest]
      · have hp' : src.isPrefixOf e.1 = false := by
          cases hpp : src.isPrefixOf e.1 with
          | true => exact absurd hpp hp
          | false => rfl
        rw [FS.get_cons]
        simp only [hp', Bool.false_eq_true, if_false]
        rw [FS.get_cons]
        have hne1 : ¬ e.1 = dst ++ rest := by
          intro hc
          have hpre : dst.isPrefixOf e.1 = true := by
            rw [hc]
            exact isPrefixOf_append_right dst rest
          have hedst := hclean e (List.mem_cons_self e st) hpre
          rw [hedst] at hc
          have hlen := congrArg List.length hc
          simp at hlen
          exact hrest hlen
        have hne2 : ¬ e.1 = src ++ rest := by
          intro hc
          rw [hc, isPrefixOf_append_right] at hp'
          exact absurd hp' (by simp)
        rw [if_neg hne1, if_neg hne2, ih hcleanrest]

theorem frame_create (x : XCFramework) (env : Env) (cargo : Path) (name : String)
    (temp dest swift : Path) :
    ∀ (st : FS) (q : Path), temp.isPrefixOf q = false → dest.isPrefixOf q = false →
      swift.isPrefixOf q = false →
      FS.get (((x.create env cargo name temp dest swift) st).2) q = FS.get st q := by
  intro st q hq1 hq2 hq3
  unfold XCFramework.create
  rw [FsM.run_bind]
  rcases hcx : (x.create_xcframework env cargo name temp) st with ⟨r, st1⟩
  have hst1 : FS.get st1 q = FS.get st q := by
    have := frame_create_xcframework x env cargo name temp st q hq1
    rw [hcx] at this
    exact this
  cases r with
  | error e =>
    show FS.get st1 q = FS.get st q
    exact hst1
  | ok td =>
    have htd : td = temp ++ [name ++ ".xcframework"] := create_xcframework_ret hcx
    have htdq : td.isPrefixOf q = false := by
      rw [htd]
      exact not_prefix_extend hq1 (isPrefixOf_append_right temp [name ++ ".xcframework"])
    refine Eq.trans (FsM.frame_bind _ _
      (fun q' => temp.isPrefixOf q' = false ∧ dest.isPrefixOf q' = false ∧
        swift.isPrefixOf q' = false ∧ td.isPrefixOf q' = false) ?_ ?_ st1 q
      ⟨hq1, hq2, hq3, htdq⟩) hst1
    · intro st' q' hq'
      exact frame_patch_xcframework td name st' q' hq'.2.2.2
    · intro a st' q' hq'
      refine FsM.frame_bind _ _
        (fun q' => temp.isPrefixOf q' = false ∧ dest.isPrefixOf q' = false ∧
          swift.isPrefixOf q' = false ∧ td.isPrefixOf q' = false) ?_ ?_ st' q' hq'
      · intro st'' q'' hq''
        exact frame_recreate_dir dest st'' q'' hq''.2.1
      · intro a' st'' q'' hq''
        refine FsM.frame_bind _ _
          (fun q' => temp.isPrefixOf q' = false ∧ dest.isPrefixOf q' = false ∧
            swift.isPrefixOf q' = false ∧ td.isPrefixOf q' = false) ?_ ?_ st'' q'' hq''
        · intro st3 q3 hq3'
          exact frame_renameM td dest st3 q3 hq3'.2.2.2 hq3'.2.1
        · intro a'' st3 q3 hq3'
          refine FsM.frame_bind _ _
            (fun q' => temp.isPrefixOf q' = false ∧ dest.isPrefixOf q' = false ∧
              swift.isPrefixOf q' = false ∧ td.isPrefixOf q' = false) ?_ ?_ st3 q3 hq3'
          · intro st4 q4 hq4
            exact frame_recreate_dir swift st4 q4 hq4.2.2.1
          · intro a3 st4 q4 hq4
            cases hlib : x.libraries[0]? with
            | none => rfl
            | some lib0 =>
              refine FsM.frame_bind _ _
                (fun q' => temp.isPrefixOf q' = false ∧ dest.isPrefixOf q' = false ∧
                  swift.isPrefixOf q' = false ∧ td.isPrefixOf q' = false) ?_ ?_ st4 q4 hq4
              · intro st5 q5 hq5
                rw [swift_binding_files_state]
              · intro files st5 q5 hq5
                exact frame_copySwiftFiles swift files st5 q5 hq5.2.2.1

/-! ## C3: destination replacement by atomic rename -/

/-- C3: (1) `fs::recreate_dir` deletes all pre-existing content below its
argument, so the destination is cleared before the rename; (2) assembling
the bundle (`create_xcframework`) touches only paths under the scratch
root, succeed or fail; (3) the patch step touches only paths under the
assembled bundle; (4) a run failing during assembly aborts `create` with
the assembly's failure state (whose destination subtree is, by (2),
untouched); (5) likewise for a failure during patching; (6) after a
successful assembly and patch, the destination subtree of the final state
is exactly the patched temporary bundle's subtree, re-rooted by the rename
— the destination reflects only the new run's outputs, with no leftover
entry from any previous bundle. -/
theorem c3_destination_replacement :
    (∀ (p : Path) (st : FS) (q : Path), p.isPrefixOf q = true → q ≠ p →
      FS.get (((recreate_dir p) st).2) q = none)
    ∧ (∀ (x : XCFramework) (env : Env) (cargo : Path) (name : String) (temp : Path)
        (st : FS) (q : Path), temp.isPrefixOf q = false →
        FS.get (((x.create_xcframework env cargo name temp) st).2) q = FS.get st q)
    ∧ (∀ (td : Path) (module : String) (st : FS) (q : Path), td.isPrefixOf q = false →
        FS.get (((XCFramework.patch_xcframework td module) st).2) q = FS.get st q)
    ∧ (∀ (x : XCFramework) (env : Env) (cargo : Path) (name : String)
        (temp dest swift : Path) (st st1 : FS) (e : Err),
        (x.create_xcframework env cargo name temp) st = (.error e, st1) →
        (x.create env cargo name temp dest swift) st = (.error e, st1))
    ∧ (∀ (x : XCFramework) (env : Env) (cargo : Path) (name : String)
        (temp dest swift : Path) (st st1 st2 : FS) (td : Path) (e : Err),
        (x.create_xcframework env cargo name temp) st = (.ok td, st1) →
        (XCFramework.patch_xcframework td name) st1 = (.error e, st2) →
        (x.create env cargo name temp dest swift) st = (.error e, st2))
    ∧ (∀ (x : XCFramework) (env : Env) (cargo : Path) (name : String)
        (temp dest swift : Path) (st st1 st2 : FS) (td rest : Path),
        (x.create_xcframework env cargo name temp) st = (.ok td, st1) →
        (XCFramework.patch_xcframework td name) st1 = (.ok (), st2) →
        temp.isPrefixOf dest = false → dest.isPrefixOf temp = false →
        dest.isPrefixOf swift = false → swift.isPrefixOf dest = false →
        rest ≠ [] →
        FS.get (((x.create env cargo name temp dest swift) st).2) (dest ++ rest) =
          FS.get st2 (td ++ rest)) := by
  refine ⟨?_, ?_, ?_, ?_, ?_, ?_⟩
  · intro p st q hpq hqp
    rw [run_recreate_dir]
    show FS.get (FS.setEntry p Entry.dir (FS.removeDirAll p st)) q = none
    rw [FS.get_setEntry_ne _ _ _ _ hqp, FS.get_removeDirAll_under _ _ _ hpq]
  · intro x env cargo name temp st q hq
    exact frame_create_xcframework x env cargo name temp st q hq
  · intro td module st q hq
    exact frame_patch_xcframework td module st q hq
  · intro x env cargo name temp dest swift st st1 e h
    unfold XCFramework.create
    exact FsM.run_bind_error _ _ h
  · intro x env cargo name temp dest swift st st1 st2 td e h1 h2
    unfold XCFramework.create
    refine Eq.trans (FsM.run_bind_ok _ _ h1) ?_
    exact FsM.run_bind_error _ _ h2
  · intro x env cargo name temp dest swift st st1 st2 td rest h1 h2 htd1 htd2 hds hsd hrest
    have htd : td = temp ++ [name ++ ".xcframework"] := create_xcframework_ret h1
    have h_td_dest : td.isPrefixOf dest = false := by
      rw [htd]
      exact not_prefix_extend htd1 (isPrefixOf_append_right temp [name ++ ".xcframework"])
    have h_dest_td : dest.isPrefixOf td = false := by
      rw [htd]
      exact not_prefix_of_append htd2 htd1
    have e2 : (x.create env cargo name temp dest swift) st
        = ((recreate_dir swift >>= fun _ =>
            match x.libraries[0]? with
            | none => panicF
            | some lib0 => lib0.swift_binding_files cargo >>= fun files =>
                copySwiftFiles swift files)
           (FS.rename td dest (FS.setEntry dest Entry.dir (FS.removeDirAll dest st2)))) := by
      unfold XCFramework.create
      refine Eq.trans (FsM.run_bind_ok _ _ h1) ?_
      refine Eq.trans (FsM.run_bind_ok _ _ h2) ?_
      refine Eq.trans (FsM.run_bind_ok _ _ (run_recreate_dir dest st2)) ?_
      refine Eq.trans (FsM.run_bind_ok _ _ (run_renameM td dest _)) ?_
      rfl
    rw [e2]
    have hq : swift.isPrefixOf (dest ++ rest) = false := not_prefix_of_append hsd hds
    refine Eq.trans (FsM.frame_bind _ _ (fun q => swift.isPrefixOf q = false) ?_ ?_ _ _ hq) ?_
    · intro st' q' hq'
      exact frame_recreate_dir swift st' q' hq'
    · intro a st' q' hq'
      cases hlib : x.libraries[0]? with
      | none => rfl
      | some lib0 =>
        refine FsM.frame_bind _ _ (fun q => swift.isPrefixOf q = false) ?_ ?_ st' q' hq'
        · intro st'' q'' hq''
          rw [swift_binding_files_state]
        · intro files st'' q'' hq''
          exact frame_copySwiftFiles swift files st'' q'' hq''
    · show FS.get (FS.rename td dest (FS.setEntry dest Entry.dir (FS.removeDirAll dest st2)))
          (dest ++ rest) = FS.get st2 (td ++ rest)
      rw [FS.get_rename_dest td dest rest hrest h_td_dest _ (clean_after_recreate dest st2)]
      have hq2 : dest.isPrefixOf (td ++ rest) = false := not_prefix_of_append h_dest_td h_td_dest
      rw [FS.get_setEntry_ne _ _ _ _ (ne_of_not_under hq2 (isPrefixOf_refl dest)),
        FS.get_removeDirAll_outside _ _ _ hq2]

/-- Witness for C3: a concrete successful run in which the destination
subtree of the final state equals the patched temporary bundle's subtree. -/
theorem c3_destination_replacement_witness :
    FS.get ((((XCFramework.mk [⟨⟨.IOS, false⟩, [⟨"arm64-apple-ios", .Release⟩]⟩]).create
        envOk ["t"] "M" ["tmp"] ["out", "M.xcframework"] ["out", "swift-wrapper"]) fsOk).2)
      ((["out", "M.xcframework"] : Path) ++ ["f.h"])
      = FS.get ((XCFramework.patch_xcframework ["tmp", "M" ++ ".xcframework"] "M")
          (((XCFramework.mk [⟨⟨.IOS, false⟩, [⟨"arm64-apple-ios", .Release⟩]⟩]).create_xcframework
            envOk ["t"] "M" ["tmp"]) fsOk).2).2
          ((["tmp", "M" ++ ".xcframework"] : Path) ++ ["f.h"]) :=
  (c3_destination_replacement).2.2.2.2.2
    (XCFramework.mk [⟨⟨.IOS, false⟩, [⟨"arm64-apple-ios", .Release⟩]⟩]) envOk ["t"] "M"
    ["tmp"] ["out", "M.xcframework"] ["out", "swift-wrapper"] fsOk _ _
    ["tmp", "M" ++ ".xcframework"] ["f.h"] rfl rfl (by decide) (by decide) (by decide)
    (by decide) (by decide)

/-! ## C4: the process-scoped temporary root -/

/-- C4 (refuting evaluation): a run that fails — here the toolchain
introspection call fails while resolving the platform identity — returns
the error, and the process-scoped temporary root
`<cargo_target_dir>/tmp/wp-rs-xcframework`, freshly recreated at the start
of the run, is left in place: the `?` in the source's `create_xcframework`
returns before `remove_dir_all(&temp_dir)` is reached, so the temporary
root is NOT deleted when a step fails. -/
theorem c4_failed_run_leaves_temp_root :
    ((create_xcframework envBoom ["t"] ["arm64-apple-ios"] CargoProfile.Release "M"
        ["out", "M.xcframework"] ["out", "swift-wrapper"]) fsOk).1
      = .error (.msg "boom")
    ∧ FS.get (((create_xcframework envBoom ["t"] ["arm64-apple-ios"] CargoProfile.Release "M"
        ["out", "M.xcframework"] ["out", "swift-wrapper"]) fsOk).2)
        ["t", "tmp", "wp-rs-xcframework"] = some Entry.dir :=
  ⟨rfl, rfl⟩

/-- C4 (amended): all intermediate packaging work happens under the
process-scoped temporary root — a run (successful or failed) never modifies
any path outside the temporary root, the bundle destination, and the
Swift-wrapper directory — and the temporary root is deleted at the end of a
SUCCESSFUL run; a failed run leaves it in place (see the refuting
evaluation), to be recreated by the next run. -/
theorem c4_scratch_root_scoping_and_cleanup :
    (∀ (env : Env) (cargo : Path) (targets : List String) (profile : CargoProfile)
        (name : String) (xcf swift : Path) (st : FS) (q : Path),
        (cargo ++ ["tmp", "wp-rs-xcframework"]).isPrefixOf q = false →
        xcf.isPrefixOf q = false → swift.isPrefixOf q = false →
        FS.get (((create_xcframework env cargo targets profile name xcf swift) st).2) q
          = FS.get st q)
    ∧ (∀ (env : Env) (cargo : Path) (targets : List String) (profile : CargoProfile)
        (name : String) (xcf swift : Path) (st st' : FS),
        (create_xcframework env cargo targets profile name xcf swift) st = (.ok (), st') →
        ∀ q : Path, (cargo ++ ["tmp", "wp-rs-xcframework"]).isPrefixOf q = true →
          FS.get st' q = none) := by
  constructor
  · intro env cargo targets profile name xcf swift st q hq1 hq2 hq3
    unfold create_xcframework
    refine FsM.frame_bind _ _
      (fun q => (cargo ++ ["tmp", "wp-rs-xcframework"]).isPrefixOf q = false ∧
        xcf.isPrefixOf q = false ∧ swift.isPrefixOf q = false) ?_ ?_ st q ⟨hq1, hq2, hq3⟩
    · intro st' q' hq'
      exact frame_recreate_dir _ _ _ hq'.1
    · intro a st' q' hq'
      cases hnew : XCFramework.new env targets profile with
      | error e => rfl
      | ok x =>
        refine FsM.frame_bind _ _
          (fun q => (cargo ++ ["tmp", "wp-rs-xcframework"]).isPrefixOf q = false ∧
            xcf.isPrefixOf q = false ∧ swift.isPrefixOf q = false) ?_ ?_ st' q' hq'
        · intro st'' q'' hq''
          exact frame_create x env cargo name _ xcf swift st'' q'' hq''.1 hq''.2.1 hq''.2.2
        · intro a' st'' q'' hq''
          rw [run_modifyFS]
          exact FS.get_removeDirAll_outside _ _ _ hq''.1
  · intro env cargo targets profile name xcf swift st st' h q hpq
    unfold create_xcframework at h
    obtain ⟨a1, st1, hm1, h⟩ := FsM.bind_ok_inv h
    cases hnew : XCFramework.new env targets profile with
    | error e =>
      rw [hnew] at h
      exact absurd h (by simp [run_throwMsg])
    | ok x =>
      rw [hnew] at h
      obtain ⟨a2, st2, hm2, h⟩ := FsM.bind_ok_inv h
      rw [run_modifyFS] at h
      injection h with h1 h2
      rw [← h2]
      exact FS.get_removeDirAll_under _ _ _ hpq

/-- Witness for C4's amended claim: a concrete successful run after which
the temporary root is gone, while a path outside the three roots (a built
input library) is untouched. -/
theorem c4_scratch_root_scoping_and_cleanup_witness :
    FS.get (((create_xcframework envOk ["t"] ["arm64-apple-ios"] CargoProfile.Release "M"
        ["out", "M.xcframework"] ["out", "swift-wrapper"]) fsOk).2)
        ((["t"] : Path) ++ ["tmp", "wp-rs-xcframework"]) = none
    ∧ FS.get (((create_xcframework envOk ["t"] ["arm64-apple-ios"] CargoProfile.Release "M"
        ["out", "M.xcframework"] ["out", "swift-wrapper"]) fsOk).2)
        ["t", "arm64-apple-ios", "release", "libwp.a"]
      = FS.get fsOk ["t", "arm64-apple-ios", "release", "libwp.a"] :=
  ⟨(c4_scratch_root_scoping_and_cleanup).2 envOk ["t"] ["arm64-apple-ios"]
      CargoProfile.Release "M" ["out", "M.xcframework"] ["out", "swift-wrapper"] fsOk _ rfl
      ((["t"] : Path) ++ ["tmp", "wp-rs-xcframework"]) (by decide),
   (c4_scratch_root_scoping_and_cleanup).1 envOk ["t"] ["arm64-apple-ios"]
      CargoProfile.Release "M" ["out", "M.xcframework"] ["out", "swift-wrapper"] fsOk
      ["t", "arm64-apple-ios", "release", "libwp.a"] (by decide) (by decide) (by decide)⟩

end Ush
